import Mathlib

/-!
Verification of the structural-preservation core of the translation-evaluator
repository: the recursive Pandoc-AST comparator (`compare_pandoc_asts`), the
special-block preservation checker (`check_special_block_preservation`), the
reference-integrity checker (`check_reference_integrity`) from
`src/struct_evaluator.py`, and the LaTeX special-block extractor
(`extract_special_blocks`) from `src/document_parser.py`.

The Python values flowing through the comparator are JSON values (the output
of `json.loads` on Pandoc's JSON AST); we model them with the `Json` type
below.  Python exceptions (`KeyError`, `IndexError`, `AttributeError`,
`TypeError`) are modelled by the `Except String` monad.  Python dictionaries
are modelled as association lists in insertion order; `json.loads` produces
dictionaries with unique keys, and equality of such values is structural.
-/

namespace TransEval

/-- A JSON value, as produced by `json.loads`.  Python `None` is `null`. -/
inductive Json where
  | null : Json
  | bool (b : Bool) : Json
  | int (n : Int) : Json
  | str (s : String) : Json
  | list (xs : List Json) : Json
  | obj (fields : List (String × Json)) : Json

mutual

/-- Python `==` on JSON values (structural; object fields in insertion
order, as produced by `json.loads`). -/
def jsonBeq : Json → Json → Bool
  | .null, .null => true
  | .bool a, .bool b => a == b
  | .int a, .int b => a == b
  | .str a, .str b => a == b
  | .list xs, .list ys => jsonBeqList xs ys
  | .obj fs, .obj gs => jsonBeqFields fs gs
  | _, _ => false

/-- Python `==` on JSON lists. -/
def jsonBeqList : List Json → List Json → Bool
  | [], [] => true
  | x :: xs, y :: ys => jsonBeq x y && jsonBeqList xs ys
  | _, _ => false

/-- Python `==` on JSON object field lists. -/
def jsonBeqFields : List (String × Json) → List (String × Json) → Bool
  | [], [] => true
  | (k, v) :: fs, (k', v') :: gs => k == k' && jsonBeq v v' && jsonBeqFields fs gs
  | _, _ => false

end

/-- Association-list lookup, the shape of a Python dict probe (`k in d`,
`d[k]`, `d.get(k)` all go through this). -/
def lookupField : List (String × Json) → String → Option Json
  | [], _ => none
  | (k', v) :: rest, k => if k' = k then some v else lookupField rest k

/-- Python `d.get(k)`: the stored value, or `None` when the key is absent.
Total, never raises. -/
def pyGet (fields : List (String × Json)) (k : String) : Json :=
  (lookupField fields k).getD Json.null

/-- Python `d[k]` on a dict: the stored value, or a `KeyError`. -/
def pyField (fields : List (String × Json)) (k : String) : Except String Json :=
  match lookupField fields k with
  | some v => Except.ok v
  | none => Except.error "KeyError"

/-- Python `v[i]` for a non-negative integer index `i`: list indexing
(`IndexError` out of range), string indexing (a one-character string),
dict indexing by an integer key (always `KeyError` here since JSON object
keys are strings), `TypeError` on anything else. -/
def pyIx : Json → Nat → Except String Json
  | Json.list xs, i =>
      match xs.get? i with
      | some v => Except.ok v
      | none => Except.error "IndexError"
  | Json.str s, i =>
      match s.data.get? i with
      | some c => Except.ok (Json.str (String.mk [c]))
      | none => Except.error "IndexError"
  | Json.obj _, _ => Except.error "KeyError"
  | _, _ => Except.error "TypeError"

/-- Python `v[k]` for a string key `k`: dict lookup (`KeyError` when
absent), `TypeError` on anything else. -/
def pyKey : Json → String → Except String Json
  | Json.obj fields, k => pyField fields k
  | _, _ => Except.error "TypeError"

/-- Python `len(v)`: length of a list, string or dict, `TypeError`
otherwise. -/
def pyLen : Json → Except String Nat
  | Json.list xs => Except.ok xs.length
  | Json.str s => Except.ok s.length
  | Json.obj fields => Except.ok fields.length
  | _ => Except.error "TypeError"

@[simp] theorem except_bind_ok {α β ε : Type} (a : α) (f : α → Except ε β) :
    (Except.ok a >>= f) = f a := rfl

@[simp] theorem except_bind_err {α β ε : Type} (e : ε) (f : α → Except ε β) :
    (Except.error e >>= f : Except ε β) = Except.error e := rfl

@[simp] theorem except_pure {α ε : Type} (a : α) :
    (pure a : Except ε α) = Except.ok a := rfl

/-- Difference records appended by `_compare_node` in
`src/struct_evaluator.py`; one constructor per `type` tag, carrying the
fields the Python dict carries. -/
inductive Diff where
  | extra_node (path : String) (target_node : Json)
  | missing_node (path : String) (source_node : Json)
  | type_mismatch (path : String) (source_type target_type : Json)
  | content_mismatch (path : String) (kind : String) (source_content target_content : Json)
  | image_path_mismatch (path : String) (source_path target_path : Json)
  | math_mismatch (path : String) (source_math target_math : Json)
  | link_target_mismatch (path : String) (source target : Json)
  | citation_key_mismatch (path : String) (source target : Json)
  | missing_child (path : String) (source_node : Json)
  | extra_child (path : String) (target_node : Json)
  | attribute_mismatch_c (path : String) (source_attr target_attr : Json)
  | header_level_mismatch (path : String) (source_level target_level : Json)
  | list_type_mismatch (path : String) (source_type target_type : Json)

/-- The `path` field of a difference record. -/
def Diff.path : Diff → String
  | .extra_node p _ => p
  | .missing_node p _ => p
  | .type_mismatch p _ _ => p
  | .content_mismatch p _ _ _ => p
  | .image_path_mismatch p _ _ => p
  | .math_mismatch p _ _ => p
  | .link_target_mismatch p _ _ => p
  | .citation_key_mismatch p _ _ => p
  | .missing_child p _ => p
  | .extra_child p _ => p
  | .attribute_mismatch_c p _ _ => p
  | .header_level_mismatch p _ _ => p
  | .list_type_mismatch p _ _ => p

/-- The two record types emitted after the child recursion
(lines 69-72 of `struct_evaluator.py`). -/
def Diff.isTrailer : Diff → Bool
  | .header_level_mismatch _ _ _ => true
  | .list_type_mismatch _ _ _ => true
  | _ => false

/-- The child path string `f"{path}.c[{i}]"`. -/
def childPath (p : String) (i : Nat) : String :=
  p ++ ".c[" ++ toString i ++ "]"

/-- The string carried inside `Json.str`, used for the f-string
`f'content_mismatch_{node_type}'` (only applied to string tags). -/
def jsonAsStr : Json → String
  | .str s => s
  | _ => ""

/-- Kind-specific content checks of `_compare_node`
(lines 31-50 of `struct_evaluator.py`), for two non-`None` nodes whose
`t` tags agree; `t` is that common tag, `f1`/`f2` the two dicts. -/
def kindChecks (p : String) (t : Json) (f1 f2 : List (String × Json)) :
    Except String (List Diff) :=
  if jsonBeq t (.str "Str") || jsonBeq t (.str "Code") || jsonBeq t (.str "RawBlock") then
    -- Str: text may change; Code/RawBlock: exact preservation via .get('c')
    if (jsonBeq t (.str "Code") || jsonBeq t (.str "RawBlock"))
        && !jsonBeq (pyGet f1 "c") (pyGet f2 "c") then
      Except.ok [.content_mismatch p (jsonAsStr t) (pyGet f1 "c") (pyGet f2 "c")]
    else Except.ok []
  else if jsonBeq t (.str "Image") then
    -- len(node1['c']) > 1 and len(node2['c']) > 1 and node1['c'][1] != node2['c'][1]
    do
      let c1 ← pyField f1 "c"
      let l1 ← pyLen c1
      if l1 > 1 then do
        let c2 ← pyField f2 "c"
        let l2 ← pyLen c2
        if l2 > 1 then do
          let v1 ← pyIx c1 1
          let v2 ← pyIx c2 1
          if !jsonBeq v1 v2 then
            Except.ok [.image_path_mismatch p v1 v2]
          else Except.ok []
        else Except.ok []
      else Except.ok []
  else if jsonBeq t (.str "Math") || jsonBeq t (.str "DisplayMath")
      || jsonBeq t (.str "InlineMath") then
    -- node1['c'][1] != node2['c'][1]
    do
      let c1 ← pyField f1 "c"
      let v1 ← pyIx c1 1
      let c2 ← pyField f2 "c"
      let v2 ← pyIx c2 1
      if !jsonBeq v1 v2 then Except.ok [.math_mismatch p v1 v2]
      else Except.ok []
  else if jsonBeq t (.str "Link") || jsonBeq t (.str "Citation") then
    -- node1['c'][2] != node2['c'][2], then node1['c'][0] != node2['c'][0]
    do
      let c1 ← pyField f1 "c"
      let a1 ← pyIx c1 2
      let c2 ← pyField f2 "c"
      let a2 ← pyIx c2 2
      let r1 : List Diff :=
        if !jsonBeq a1 a2 then [.link_target_mismatch p a1 a2] else []
      let b1 ← pyIx c1 0
      let b2 ← pyIx c2 0
      let r2 : List Diff :=
        if !jsonBeq b1 b2 then [.citation_key_mismatch p b1 b2] else []
      Except.ok (r1 ++ r2)
  else Except.ok []

/-- The header-level check of `_compare_node` (lines 69-70 of
`struct_evaluator.py`): `node1['c'][0] != node2['c'][0]`. -/
def headerCheck (p : String) (t : Json) (f1 f2 : List (String × Json)) :
    Except String (List Diff) :=
  if jsonBeq t (.str "Header") then do
    let c1 ← pyField f1 "c"
    let v1 ← pyIx c1 0
    let c2 ← pyField f2 "c"
    let v2 ← pyIx c2 0
    if !jsonBeq v1 v2 then Except.ok [Diff.header_level_mismatch p v1 v2]
    else Except.ok []
  else Except.ok []

/-- The list-type check of `_compare_node` (lines 71-72 of
`struct_evaluator.py`): `node1['c'][0][0]['t'] != node2['c'][0][0]['t']`. -/
def listCheck (p : String) (t : Json) (f1 f2 : List (String × Json)) :
    Except String (List Diff) :=
  if jsonBeq t (.str "List") then do
    let c1 ← pyField f1 "c"
    let e1 ← pyIx c1 0
    let e1' ← pyIx e1 0
    let t1 ← pyKey e1' "t"
    let c2 ← pyField f2 "c"
    let e2 ← pyIx c2 0
    let e2' ← pyIx e2 0
    let t2 ← pyKey e2' "t"
    if !jsonBeq t1 t2 then Except.ok [Diff.list_type_mismatch p t1 t2]
    else Except.ok []
  else Except.ok []

/-- Trailing checks of `_compare_node` (lines 69-72 of
`struct_evaluator.py`), run after the child recursion: both `if`s run in
sequence. -/
def trailerChecks (p : String) (t : Json) (f1 f2 : List (String × Json)) :
    Except String (List Diff) :=
  do
    let hs ← headerCheck p t f1 f2
    let ls ← listCheck p t f1 f2
    Except.ok (hs ++ ls)

/-- The `missing_child` records for the surplus of a longer source child
list (lines 58-60 of `struct_evaluator.py`). -/
def surplusMissing (p : String) (i : Nat) : List Json → List Diff
  | [] => []
  | x :: xs => Diff.missing_child (childPath p i) x :: surplusMissing p (i + 1) xs

/-- The `extra_child` records for the surplus of a longer target child
list (lines 61-63 of `struct_evaluator.py`). -/
def surplusExtra (p : String) (i : Nat) : List Json → List Diff
  | [] => []
  | y :: ys => Diff.extra_child (childPath p i) y :: surplusExtra p (i + 1) ys

/-- `sizeOf` of a value found by dict lookup is below `sizeOf` of the
field list (for termination of the comparator). -/
theorem lookupField_sizeOf {f : List (String × Json)} {k : String} {v : Json}
    (h : lookupField f k = some v) : sizeOf v < sizeOf f := by
  induction f with
  | nil => simp [lookupField] at h
  | cons kv rest ih =>
      obtain ⟨k', v'⟩ := kv
      by_cases hk : k' = k
      · simp [lookupField, hk] at h
        subst h
        simp
        omega
      · simp [lookupField, hk] at h
        have := ih h
        simp
        omega

mutual

/-- `_compare_node` from `src/struct_evaluator.py`: compares two JSON
nodes at the symbolic path `p`, producing the appended difference records
in order, or a Python exception. -/
def compareNode (p : String) (n1 n2 : Json) : Except String (List Diff) :=
  match n1, n2 with
  | .null, .null => Except.ok []
  | .null, n2' => Except.ok [.extra_node p n2']
  | n1', .null => Except.ok [.missing_node p n1']
  | .obj f1, .obj f2 =>
      -- node1.get('t') != node2.get('t')
      if !jsonBeq (pyGet f1 "t") (pyGet f2 "t") then
        Except.ok [.type_mismatch p (pyGet f1 "t") (pyGet f2 "t")]
      else do
        -- node_type = node1.get('t')
        let ks ← kindChecks p (pyGet f1 "t") f1 f2
        let cs ←
          match h1 : lookupField f1 "c", h2 : lookupField f2 "c" with
          | some (.list xs), some (.list ys) => compareChildren p 0 xs ys
          | some v1, some v2 =>
              -- elif 'c' in node1 and 'c' in node2 and node1['c'] != node2['c']
              if !jsonBeq v1 v2 then
                Except.ok [Diff.attribute_mismatch_c p v1 v2]
              else Except.ok []
          | _, _ => Except.ok []
        let ts ← trailerChecks p (pyGet f1 "t") f1 f2
        Except.ok (ks ++ cs ++ ts)
  | _, _ =>
      -- node1.get / node2.get on a non-dict value
      Except.error "AttributeError"
termination_by sizeOf n1
decreasing_by
  all_goals simp_wf
  · have h := lookupField_sizeOf h1
    simp at h
    omega

/-- The child loop of `_compare_node` (lines 55-63 of
`struct_evaluator.py`): pairwise recursion up to the shorter length,
then surplus records. -/
def compareChildren (p : String) (i : Nat) (xs ys : List Json) :
    Except String (List Diff) :=
  match xs, ys with
  | [], [] => Except.ok []
  | [], y :: ys' => Except.ok (surplusExtra p i (y :: ys'))
  | x :: xs', [] => Except.ok (surplusMissing p i (x :: xs'))
  | x :: xs', y :: ys' => do
      let r ← compareNode (childPath p i) x y
      let rest ← compareChildren p (i + 1) xs' ys'
      Except.ok (r ++ rest)
termination_by sizeOf xs
decreasing_by
  all_goals simp_wf <;> omega

end

/-- `compare_pandoc_asts` from `src/struct_evaluator.py`: runs
`_compare_node` on the two roots at path `"root"` and returns the
collected differences. -/
def compare_pandoc_asts (source_ast target_ast : Json) :
    Except String (List Diff) :=
  compareNode "root" source_ast target_ast

example :
    compareNode "root" (.obj [("t", .str "Math")]) (.obj [("t", .str "Math")])
      = Except.error "KeyError" := by
  simp [compareNode, kindChecks, trailerChecks, pyGet, pyField, lookupField,
    jsonBeq, jsonBeqList, jsonBeqFields, Except.bind]

/-- A `references` entry `{'key': ..., 'line': ...}` built by
`extract_special_blocks`. -/
structure RefEntry where
  key : String
  line : Nat
deriving DecidableEq, Repr

/-- The dictionary built by `extract_special_blocks` in
`src/document_parser.py` (its five fixed keys).  `labels` is a Python
dict `{label_name: line_number}` in insertion order with unique keys. -/
structure Inventory where
  code_blocks : List String
  equations : List String
  image_paths : List String
  labels : List (String × Nat)
  references : List RefEntry
deriving DecidableEq, Repr

/-- Issue records appended by `check_special_block_preservation`. -/
inductive BlockIssue where
  | code_block_count_mismatch (source_count target_count : Nat)
  | code_block_content_mismatch (index : Nat) (source_content target_content : String)
  | equation_count_mismatch (source_count target_count : Nat)
  | equation_content_mismatch (index : Nat) (source_content target_content : String)
  | image_path_set_mismatch (source_paths target_paths : List String)
deriving DecidableEq, Repr

/-- Issue records appended by `check_reference_integrity`. -/
inductive RefIssue where
  | missing_labels (labels : List String)
  | extra_labels (labels : List String)
  | reference_count_mismatch (source_count target_count : Nat)
  | reference_key_mismatch (index : Nat) (source_key target_key : String)
  | missing_reference_in_target (source_key : String)
  | dangling_reference (key : String) (line : Nat)
deriving DecidableEq, Repr

/-- Python `set(a) == set(b)` for two lists of strings. -/
def pySetEq (a b : List String) : Bool :=
  a.all (fun x => b.contains x) && b.all (fun x => a.contains x)

/-- The per-index content loop `for i, (s, t) in enumerate(zip(src, tgt))`
emitting a record at each index where the spans differ. -/
def contentMismatches (mk : Nat → String → String → BlockIssue) (i : Nat) :
    List String → List String → List BlockIssue
  | s :: ss, t :: ts =>
      (if s ≠ t then [mk i s t] else []) ++ contentMismatches mk (i + 1) ss ts
  | _, _ => []

/-- `check_special_block_preservation` from `src/struct_evaluator.py`. -/
def check_special_block_preservation (source_blocks target_blocks : Inventory) :
    List BlockIssue :=
  (if source_blocks.code_blocks.length ≠ target_blocks.code_blocks.length then
    [.code_block_count_mismatch source_blocks.code_blocks.length
      target_blocks.code_blocks.length]
  else
    contentMismatches BlockIssue.code_block_content_mismatch 0
      source_blocks.code_blocks target_blocks.code_blocks)
  ++
  (if source_blocks.equations.length ≠ target_blocks.equations.length then
    [.equation_count_mismatch source_blocks.equations.length
      target_blocks.equations.length]
  else
    contentMismatches BlockIssue.equation_content_mismatch 0
      source_blocks.equations target_blocks.equations)
  ++
  (if !pySetEq source_blocks.image_paths target_blocks.image_paths then
    [.image_path_set_mismatch source_blocks.image_paths target_blocks.image_paths]
  else [])

/-- The positional loop of `check_reference_integrity`
(lines 135-139 of `struct_evaluator.py`): walk the source keys by index;
a differing key below the target length emits `reference_key_mismatch`, an
index beyond the target length emits `missing_reference_in_target`. -/
def refPositional (i : Nat) (srcKeys tgtKeys : List String) : List RefIssue :=
  match srcKeys with
  | [] => []
  | k :: ks =>
      (match tgtKeys.get? i with
       | some tk => if k ≠ tk then [.reference_key_mismatch i k tk] else []
       | none => [.missing_reference_in_target k])
      ++ refPositional (i + 1) ks tgtKeys

/-- `check_reference_integrity` from `src/struct_evaluator.py`. -/
def check_reference_integrity (source_blocks target_blocks : Inventory) :
    List RefIssue :=
  let source_label_keys := source_blocks.labels.map Prod.fst
  let target_label_keys := target_blocks.labels.map Prod.fst
  let missing_labels_in_target :=
    source_label_keys.filter (fun k => !target_label_keys.contains k)
  let extra_labels_in_target :=
    target_label_keys.filter (fun k => !source_label_keys.contains k)
  let source_ref_keys := source_blocks.references.map RefEntry.key
  let target_ref_keys := target_blocks.references.map RefEntry.key
  (if missing_labels_in_target ≠ [] then [.missing_labels missing_labels_in_target]
   else [])
  ++ (if extra_labels_in_target ≠ [] then [.extra_labels extra_labels_in_target]
   else [])
  ++ (if source_ref_keys.length ≠ target_ref_keys.length then
        [.reference_count_mismatch source_ref_keys.length target_ref_keys.length]
      else [])
  ++ refPositional 0 source_ref_keys target_ref_keys
  ++ (target_blocks.references.filterMap (fun r =>
        if !target_label_keys.contains r.key then
          some (.dangling_reference r.key r.line)
        else none))

/-- Does `p` occur as a leading run of `h`? -/
def listLeads : List Char → List Char → Bool
  | [], _ => true
  | _ :: _, [] => false
  | c :: cs, d :: ds => c == d && listLeads cs ds

/-- Does `p` occur as a contiguous run anywhere in `h`?  (`re.search` of a
literal pattern.) -/
def listHas (p : List Char) : List Char → Bool
  | [] => p.isEmpty
  | c :: t => listLeads p (c :: t) || listHas p t

/-- `re.search` of `r'\\begin\{(?:lstlisting|verbatim)\}'`: the pattern is
a literal alternation, so search is substring containment. -/
def matchesCodeStart (line : String) : Bool :=
  listHas "\\begin{lstlisting}".data line.data || listHas "\\begin{verbatim}".data line.data

/-- `re.search` of `r'\\end\{(?:lstlisting|verbatim)\}'`. -/
def matchesCodeEnd (line : String) : Bool :=
  listHas "\\end{lstlisting}".data line.data || listHas "\\end{verbatim}".data line.data

/-- `re.search` of `r'\\begin\{(?:equation|align|$$)\}'`.  The `$$`
alternative contains end-of-string anchors followed by a required `}` and
can never match, so the search is containment of the two literals. -/
def matchesEqStart (line : String) : Bool :=
  listHas "\\begin{equation}".data line.data || listHas "\\begin{align}".data line.data

/-- `re.search` of `r'\\end\{(?:equation|align|$$)\}'`. -/
def matchesEqEnd (line : String) : Bool :=
  listHas "\\end{equation}".data line.data || listHas "\\end{align}".data line.data

/-- Characters up to (but not including) the first occurrence of `stop`,
with the remainder after `stop`; fails at a newline or end of input
(regex `.` does not match a newline). -/
def takeUntilChar (stop : Char) : List Char → Option (List Char × List Char)
  | [] => none
  | c :: rest =>
      if c == stop then some ([], rest)
      else if c == '\n' then none
      else match takeUntilChar stop rest with
        | some (content, rest') => some (c :: content, rest')
        | none => none

/-- Consuming `takeUntilChar` leaves a strictly shorter remainder. -/
theorem takeUntilChar_len {stop : Char} :
    ∀ {l content rest'}, takeUntilChar stop l = some (content, rest') →
      rest'.length < l.length := by
  intro l
  induction l with
  | nil => intro _ _ h; simp [takeUntilChar] at h
  | cons c rest ih =>
      intro content rest' h
      rw [takeUntilChar] at h
      split at h
      · simp at h
        obtain ⟨h1, h2⟩ := h
        subst h2
        simp
      · split at h
        · simp at h
        · split at h
          next con2 r2 heq =>
            simp at h
            obtain ⟨h1, h2⟩ := h
            subst h2
            have := ih heq
            simp
            omega
          next heq => simp at h

/-- `takeUntilChar` applied after a `drop` still leaves a remainder
strictly shorter than the whole list. -/
theorem capture_drop_len {stop : Char} {l : List Char} {n : Nat} {content rest'}
    (h : takeUntilChar stop (l.drop n) = some (content, rest')) :
    rest'.length < l.length := by
  have h1 := takeUntilChar_len h
  have h2 : (l.drop n).length ≤ l.length := by simp
  omega

/-- `re.finditer(r'\$(.*?)\$', line)`, emitting `f"${g}$"` per match as
line 131 of `src/document_parser.py` does (the scan resumes after each
match's closing delimiter). -/
def inlineMathSpans : List Char → List String
  | [] => []
  | c :: rest =>
      if c == '$' then
        match h : takeUntilChar '$' rest with
        | some (content, rest') =>
            ("$" ++ String.mk content ++ "$") :: inlineMathSpans rest'
        | none => inlineMathSpans rest
      else inlineMathSpans rest
termination_by l => l.length
decreasing_by
  all_goals first
    | (have hlen := takeUntilChar_len h; simp only [List.length_cons]; omega)
    | (simp only [List.length_cons]; omega)

/-- Generic `re.finditer` scan for an alternation of patterns, each a
literal command followed by a shortest brace-style argument `(.*?)` up to
`stop`: at each position the first alternative whose literal leads is
tried; a successful capture is emitted and the scan resumes after the
closing delimiter. -/
def scanAlts (pres : List (List Char)) (stop : Char) : List Char → List String
  | [] => []
  | c :: rest =>
      match pres.find? (fun pre => listLeads pre (c :: rest)) with
      | some pre =>
          match h : takeUntilChar stop ((c :: rest).drop pre.length) with
          | some (key, r') => String.mk key :: scanAlts pres stop r'
          | none => scanAlts pres stop rest
      | none => scanAlts pres stop rest
termination_by l => l.length
decreasing_by
  all_goals first
    | exact capture_drop_len h
    | (simp only [List.length_cons]; omega)

/-- The argument parse of `\\includegraphics(?:\[.*?\])?\{(.*?)\}` after
the literal command: an optional shortest bracket group, then the
captured shortest brace group. -/
def imageArg : List Char → Option (List Char × List Char)
  | [] => none
  | c :: r =>
      if c == '[' then
        match takeUntilChar ']' r with
        | some (_, r1) =>
            (match r1 with
             | [] => none
             | c2 :: r2 => if c2 == '{' then takeUntilChar '}' r2 else none)
        | none => none
      else if c == '{' then takeUntilChar '}' r
      else none

/-- A successful `imageArg` parse leaves a strictly shorter remainder. -/
theorem imageArg_len :
    ∀ {l path rest'}, imageArg l = some (path, rest') → rest'.length < l.length := by
  intro l path rest' h
  cases l with
  | nil => simp [imageArg] at h
  | cons c r =>
      simp only [imageArg] at h
      by_cases hc : (c == '[') = true
      · simp only [hc, if_pos] at h
        rcases h1 : takeUntilChar ']' r with _ | ⟨x, r1⟩
        · rw [h1] at h; simp at h
        · rw [h1] at h
          have hl1 := takeUntilChar_len h1
          cases r1 with
          | nil => simp at h
          | cons c2 r2 =>
              by_cases hc2 : (c2 == '{') = true
              · simp only [hc2, if_pos] at h
                have hl2 := takeUntilChar_len h
                simp at hl1 ⊢
                omega
              · simp [hc2] at h
      · simp only [Bool.not_eq_true] at hc
        simp only [hc] at h
        by_cases hc2 : (c == '{') = true
        · simp only [hc2, if_pos] at h
          have hl := takeUntilChar_len h
          simp
          omega
        · simp only [Bool.not_eq_true] at hc2
          simp [hc2] at h

/-- A successful `imageArg` parse after a `drop` leaves a remainder
strictly shorter than the whole list. -/
theorem imageArg_drop_len {l : List Char} {n : Nat} {path rest'}
    (h : imageArg (l.drop n) = some (path, rest')) : rest'.length < l.length := by
  have h1 := imageArg_len h
  have h2 : (l.drop n).length ≤ l.length := by simp
  omega

/-- `re.finditer(r'\\includegraphics(?:\[.*?\])?\{(.*?)\}', line)`,
capture group 1 per match. -/
def imageMatches : List Char → List String
  | [] => []
  | c :: rest =>
      if listLeads "\\includegraphics".data (c :: rest) then
        match h : imageArg ((c :: rest).drop "\\includegraphics".data.length) with
        | some (path, r') => String.mk path :: imageMatches r'
        | none => imageMatches rest
      else imageMatches rest
termination_by l => l.length
decreasing_by
  all_goals first
    | exact imageArg_drop_len h
    | (simp only [List.length_cons]; omega)

/-- `re.finditer(r'\\label\{(.*?)\}', line)`, capture group 1 per match. -/
def labelMatches (l : List Char) : List String :=
  scanAlts ["\\label\x7b".data] '}' l

/-- `re.finditer(r'\\ref\{(.*?)\}|\\eqref\{(.*?)\}|\\cite\{(.*?)\}', line)`:
leftmost match, alternatives tried in order; the first non-`None` capture
group is the key (line 138 of `src/document_parser.py`). -/
def refMatches (l : List Char) : List String :=
  scanAlts ["\\ref\x7b".data, "\\eqref\x7b".data, "\\cite\x7b".data] '}' l

/-- Python dict assignment `d[k] = v`: overwrite in place (the key keeps
its original position), append when absent. -/
def dictAssign (k : String) (v : Nat) : List (String × Nat) → List (String × Nat)
  | [] => [(k, v)]
  | (k', v') :: rest =>
      if k' = k then (k', v) :: rest else (k', v') :: dictAssign k v rest

/-- The `for match in label_pattern.finditer(line)` loop: assign each
captured key to the current line index, in order. -/
def insertLabels (i : Nat) : List String → List (String × Nat) → List (String × Nat)
  | [], d => d
  | k :: ks, d => insertLabels i ks (dictAssign k i d)

/-- The `else` branch of the LaTeX scan ("normal line processing",
lines 128-140 of `src/document_parser.py`). -/
def processNormalLine (i : Nat) (line : String) (c : Inventory) : Inventory :=
  { c with
    equations := c.equations ++ inlineMathSpans line.data
    image_paths := c.image_paths ++ imageMatches line.data
    labels := insertLabels i (labelMatches line.data) c.labels
    references := c.references ++ (refMatches line.data).map (fun k => ⟨k, i⟩) }

/-- The mutable state of the LaTeX forward line scan in
`extract_special_blocks`: the two modal flags, the line buffer, and the
accumulated inventory. -/
structure ScanState where
  in_code : Bool
  in_equation : Bool
  current_block : List String
  content : Inventory
deriving DecidableEq, Repr

/-- The inventory before any line is processed. -/
def emptyInventory : Inventory := ⟨[], [], [], [], []⟩

/-- The scan state before any line is processed. -/
def initState : ScanState := ⟨false, false, [], emptyInventory⟩

/-- One iteration of the `for i, line in enumerate(lines)` loop of the
LaTeX branch of `extract_special_blocks` (lines 109-140 of
`src/document_parser.py`). -/
def latexStep (i : Nat) (st : ScanState) (line : String) : ScanState :=
  if matchesCodeStart line then
    { st with in_code := true, current_block := [line] }
  else if matchesCodeEnd line && st.in_code then
    { st with
      in_code := false
      content := { st.content with
        code_blocks := st.content.code_blocks
          ++ [String.join (st.current_block ++ [line])] }
      current_block := [] }
  else if matchesEqStart line then
    { st with in_equation := true, current_block := [line] }
  else if matchesEqEnd line && st.in_equation then
    { st with
      in_equation := false
      content := { st.content with
        equations := st.content.equations
          ++ [String.join (st.current_block ++ [line])] }
      current_block := [] }
  else if st.in_code || st.in_equation then
    { st with current_block := st.current_block ++ [line] }
  else
    { st with content := processNormalLine i line st.content }

/-- The whole LaTeX scan loop from line index `i` and state `st`. -/
def scanLatexFrom (i : Nat) (st : ScanState) : List String → ScanState
  | [] => st
  | l :: ls => scanLatexFrom (i + 1) (latexStep i st l) ls

/-- `extract_special_blocks(filepath, 'latex')` after the file has been
read into `lines`: the final `content` dictionary (the buffered
`current_block` of an unterminated trailing block is discarded). -/
def extract_special_blocks_latex (lines : List String) : Inventory :=
  (scanLatexFrom 0 initState lines).content

theorem jsonBeq_eq_all :
    (∀ a b : Json, jsonBeq a b = true ↔ a = b)
    ∧ (∀ fs gs : List (String × Json), jsonBeqFields fs gs = true ↔ fs = gs)
    ∧ (∀ xs ys : List Json, jsonBeqList xs ys = true ↔ xs = ys) := by
  apply jsonBeq.mutual_induct <;> intros
  case case1 => simp [jsonBeq]
  case case2 => simp [jsonBeq]
  case case3 => simp [jsonBeq]
  case case4 => simp [jsonBeq]
  case case5 => rename_i xs ys ih; simp [jsonBeq, ih]
  case case6 => rename_i fs gs ih; simp [jsonBeq, ih]
  case case7 =>
    rename_i t u h1 h2 h3 h4 h5 h6
    cases t <;> cases u <;>
      first
        | exact (h1 rfl rfl).elim
        | exact (h2 _ _ rfl rfl).elim
        | exact (h3 _ _ rfl rfl).elim
        | exact (h4 _ _ rfl rfl).elim
        | exact (h5 _ _ rfl rfl).elim
        | exact (h6 _ _ rfl rfl).elim
        | simp [jsonBeq]
  case case8 => simp [jsonBeqList]
  case case9 => rename_i x xs y ys ih1 ih2; simp [jsonBeqList, ih1, ih2]
  case case10 =>
    rename_i t u h1 h2
    cases t <;> cases u <;>
      first
        | exact (h1 rfl rfl).elim
        | exact (h2 _ _ _ _ rfl rfl).elim
        | simp [jsonBeqList]
  case case11 => simp [jsonBeqFields]
  case case12 => rename_i k v fs k' v' gs ih1 ih2; simp [jsonBeqFields, ih1, ih2]
  case case13 =>
    rename_i t u h1 h2
    cases t with
    | nil =>
        cases u with
        | nil => exact (h1 rfl rfl).elim
        | cons b gs => simp [jsonBeqFields]
    | cons a fs =>
        cases u with
        | nil => simp [jsonBeqFields]
        | cons b gs =>
            obtain ⟨k, v⟩ := a
            obtain ⟨k', v'⟩ := b
            exact (h2 _ _ _ _ _ _ rfl rfl).elim

/-- Python `==` on JSON values agrees with structural equality. -/
theorem jsonBeq_eq (a b : Json) : jsonBeq a b = true ↔ a = b :=
  jsonBeq_eq_all.1 a b

theorem jsonBeqList_eq (xs ys : List Json) : jsonBeqList xs ys = true ↔ xs = ys :=
  jsonBeq_eq_all.2.2 xs ys

theorem jsonBeqFields_eq (fs gs : List (String × Json)) :
    jsonBeqFields fs gs = true ↔ fs = gs :=
  jsonBeq_eq_all.2.1 fs gs

theorem jsonBeq_refl (a : Json) : jsonBeq a a = true :=
  (jsonBeq_eq a a).2 rfl

theorem jsonBeq_ne (a b : Json) : jsonBeq a b = false ↔ a ≠ b := by
  constructor
  · intro h he
    subst he
    rw [jsonBeq_refl] at h
    simp at h
  · intro h
    cases hb : jsonBeq a b
    · rfl
    · exact absurd ((jsonBeq_eq a b).1 hb) h

/-! ## Helper predicates and lemmas for the block/reference checkers -/

def BlockIssue.isCodeCount : BlockIssue → Bool
  | .code_block_count_mismatch _ _ => true
  | _ => false

def BlockIssue.isCodeContent : BlockIssue → Bool
  | .code_block_content_mismatch _ _ _ => true
  | _ => false

def BlockIssue.isEqCount : BlockIssue → Bool
  | .equation_count_mismatch _ _ => true
  | _ => false

def BlockIssue.isEqContent : BlockIssue → Bool
  | .equation_content_mismatch _ _ _ => true
  | _ => false

def RefIssue.isCount : RefIssue → Bool
  | .reference_count_mismatch _ _ => true
  | _ => false

def RefIssue.isKeyMismatch : RefIssue → Bool
  | .reference_key_mismatch _ _ _ => true
  | _ => false

theorem contentMismatches_mem {mk : Nat → String → String → BlockIssue} :
    ∀ {i : Nat} {xs ys : List String} {d : BlockIssue},
      d ∈ contentMismatches mk i xs ys → ∃ j a b, d = mk j a b := by
  intro i xs ys
  induction xs generalizing i ys with
  | nil => intro d h; simp [contentMismatches] at h
  | cons x xs ih =>
      intro d h
      cases ys with
      | nil => simp [contentMismatches] at h
      | cons y ys =>
          rw [contentMismatches] at h
          rcases List.mem_append.1 h with h1 | h2
          · by_cases hxy : x ≠ y
            · simp [hxy] at h1
              exact ⟨i, x, y, h1⟩
            · simp [hxy] at h1
          · exact ih h2

theorem pySetEq_iff (a b : List String) :
    pySetEq a b = true ↔ (∀ x, x ∈ a ↔ x ∈ b) := by
  simp only [pySetEq, Bool.and_eq_true, List.all_eq_true]
  constructor
  · rintro ⟨h1, h2⟩ x
    constructor
    · intro hx
      have := h1 x hx
      simpa using this
    · intro hx
      have := h2 x hx
      simpa using this
  · intro h
    constructor
    · intro x hx
      simpa using (h x).1 hx
    · intro x hx
      simpa using (h x).2 hx

/-- C5, counterexample: the source inventory has the image path `"a"`
twice, the target only once — the multisets differ (the counts of `"a"`
differ), yet `check_special_block_preservation` emits no record at all:
the code compares `set(...)` against `set(...)`, so dropping one copy of
a duplicated path is NOT reported. -/
theorem C5_counterexample :
    check_special_block_preservation
        ⟨[], [], ["a", "a"], [], []⟩ ⟨[], [], ["a"], [], []⟩ = []
      ∧ List.count "a" ["a", "a"] ≠ List.count "a" ["a"] := by
  constructor
  · rfl
  · decide

/-- C5 (amended): `check_special_block_preservation` compares the two
`image_paths` collections as SETS: it emits the
`image_path_set_mismatch` record exactly when the set of source image
paths differs from the set of target image paths; a difference only in
multiplicities (or in order) is not reported. -/
theorem C5_image_path_set_rule (s t : Inventory) :
    (BlockIssue.image_path_set_mismatch s.image_paths t.image_paths
        ∈ check_special_block_preservation s t)
      ↔ ¬(∀ x, x ∈ s.image_paths ↔ x ∈ t.image_paths) := by
  rw [← pySetEq_iff]
  unfold check_special_block_preservation
  simp only [List.mem_append]
  constructor
  · rintro ((h | h) | h)
    · by_cases hc : s.code_blocks.length ≠ t.code_blocks.length
      · simp [hc] at h
      · simp only [hc, if_neg, ite_false] at h
        obtain ⟨j, a, b, hd⟩ := contentMismatches_mem (by simpa [hc] using h)
        simp at hd
    · by_cases hc : s.equations.length ≠ t.equations.length
      · simp [hc] at h
      · obtain ⟨j, a, b, hd⟩ := contentMismatches_mem (by simpa [hc] using h)
        simp at hd
    · by_cases hp : pySetEq s.image_paths t.image_paths
      · simp [hp] at h
      · simp at hp
        simp [hp]
  · intro h
    right
    have h' : pySetEq s.image_paths t.image_paths = false := by
      cases hb : pySetEq s.image_paths t.image_paths
      · rfl
      · exact absurd hb (by simpa using h)
    simp [h']

/-- C5 witness for the amended rule at concrete inventories:
source paths `["a", "b"]`, target paths `["a"]` — the sets differ, and
the record is emitted. -/
theorem C5_image_path_set_rule_witness :
    BlockIssue.image_path_set_mismatch ["a", "b"] ["a"]
      ∈ check_special_block_preservation
          ⟨[], [], ["a", "b"], [], []⟩ ⟨[], [], ["a"], [], []⟩ :=
  (C5_image_path_set_rule ⟨[], [], ["a", "b"], [], []⟩ ⟨[], [], ["a"], [], []⟩).2
    (by intro h; have := (h "b").1 (by simp); simp at this)

/-- C10: in `check_special_block_preservation` a count mismatch
suppresses the per-index content checks: when the `code_blocks`
(respectively `equations`) lists differ in length, the output carries the
single count-mismatch record for that collection and no per-index
content-mismatch record for it; when the lengths agree, no count record
is emitted for that collection. -/
theorem C10_count_mismatch_suppresses (s t : Inventory) :
    (s.code_blocks.length ≠ t.code_blocks.length →
      (check_special_block_preservation s t).filter (fun d => d.isCodeCount)
          = [.code_block_count_mismatch s.code_blocks.length t.code_blocks.length]
        ∧ (check_special_block_preservation s t).filter (fun d => d.isCodeContent) = [])
    ∧ (s.equations.length ≠ t.equations.length →
      (check_special_block_preservation s t).filter (fun d => d.isEqCount)
          = [.equation_count_mismatch s.equations.length t.equations.length]
        ∧ (check_special_block_preservation s t).filter (fun d => d.isEqContent) = [])
    ∧ (s.code_blocks.length = t.code_blocks.length →
      (check_special_block_preservation s t).filter (fun d => d.isCodeCount) = [])
    ∧ (s.equations.length = t.equations.length →
      (check_special_block_preservation s t).filter (fun d => d.isEqCount) = []) := by
  have himg : ∀ p : BlockIssue → Bool,
      (∀ a b, p (.image_path_set_mismatch a b) = false) →
      (if !pySetEq s.image_paths t.image_paths then
          [BlockIssue.image_path_set_mismatch s.image_paths t.image_paths]
        else []).filter p = [] := by
    intro p hp
    by_cases h : pySetEq s.image_paths t.image_paths <;> simp [h, hp]
  have hcontent : ∀ (mk : Nat → String → String → BlockIssue)
      (p : BlockIssue → Bool) (i : Nat) (xs ys : List String),
      (∀ j a b, p (mk j a b) = false) →
      (contentMismatches mk i xs ys).filter p = [] := by
    intro mk p i xs ys hp
    rw [List.filter_eq_nil]
    intro d hd
    obtain ⟨j, a, b, rfl⟩ := contentMismatches_mem hd
    simp [hp]
  unfold check_special_block_preservation
  refine ⟨fun hne => ⟨?_, ?_⟩, fun hne => ⟨?_, ?_⟩, fun heq => ?_, fun heq => ?_⟩
  all_goals
    simp only [List.filter_append]
  · by_cases he : s.equations.length ≠ t.equations.length <;>
      simp [hne, he, himg, hcontent, BlockIssue.isCodeCount]
  · by_cases he : s.equations.length ≠ t.equations.length <;>
      simp [hne, he, himg, hcontent, BlockIssue.isCodeContent]
  · by_cases hc : s.code_blocks.length ≠ t.code_blocks.length <;>
      simp [hne, hc, himg, hcontent, BlockIssue.isEqCount]
  · by_cases hc : s.code_blocks.length ≠ t.code_blocks.length <;>
      simp [hne, hc, himg, hcontent, BlockIssue.isEqContent]
  · by_cases he : s.equations.length ≠ t.equations.length <;>
      simp [heq, he, himg, hcontent, BlockIssue.isCodeCount]
  · by_cases hc : s.code_blocks.length ≠ t.code_blocks.length <;>
      simp [heq, hc, himg, hcontent, BlockIssue.isEqCount]

/-- C10 witness at concrete inventories: source has two code blocks and
two equations, target has one of each — both count records appear and
no content records. -/
theorem C10_count_mismatch_suppresses_witness :
    (check_special_block_preservation
        ⟨["a", "b"], ["e", "f"], [], [], []⟩ ⟨["a"], ["e"], [], [], []⟩).filter
          (fun d => d.isCodeCount) = [.code_block_count_mismatch 2 1]
    ∧ (check_special_block_preservation
        ⟨["a", "b"], ["e", "f"], [], [], []⟩ ⟨["a"], ["e"], [], [], []⟩).filter
          (fun d => d.isCodeContent) = [] :=
  (C10_count_mismatch_suppresses ⟨["a", "b"], ["e", "f"], [], [], []⟩
    ⟨["a"], ["e"], [], [], []⟩).1 (by decide)

theorem refPositional_key_mem :
    ∀ (ks : List String) (j i : Nat) (tk : List String) (sk tkk : String),
      ks.get? i = some sk → tk.get? (j + i) = some tkk → sk ≠ tkk →
      RefIssue.reference_key_mismatch (j + i) sk tkk ∈ refPositional j ks tk := by
  intro ks
  induction ks with
  | nil => intro j i tk sk tkk h1; simp at h1
  | cons k ks ih =>
      intro j i tk sk tkk h1 h2 hne
      rw [refPositional]
      rcases i with _ | i'
      · simp at h1
        subst h1
        simp only [Nat.add_zero] at h2 ⊢
        rw [h2]
        simp [hne]
      · have h1' : ks.get? i' = some sk := by simpa using h1
        have harith : j + (i' + 1) = (j + 1) + i' := by omega
        rw [harith] at h2 ⊢
        exact List.mem_append.2 (Or.inr (ih (j + 1) i' tk sk tkk h1' h2 hne))

theorem refPositional_missing_mem :
    ∀ (ks : List String) (j i : Nat) (tk : List String) (sk : String),
      ks.get? i = some sk → tk.length ≤ j + i →
      RefIssue.missing_reference_in_target sk ∈ refPositional j ks tk := by
  intro ks
  induction ks with
  | nil => intro j i tk sk h1; simp at h1
  | cons k ks ih =>
      intro j i tk sk h1 h2
      rw [refPositional]
      rcases i with _ | i'
      · simp at h1
        subst h1
        have hnone : tk.get? j = none := by
          rw [List.get?_eq_none]
          omega
        rw [hnone]
        simp
      · have h1' : ks.get? i' = some sk := by simpa using h1
        have h2' : tk.length ≤ (j + 1) + i' := by omega
        exact List.mem_append.2 (Or.inr (ih (j + 1) i' tk sk h1' h2'))

theorem refPositional_filter_count :
    ∀ (ks : List String) (j : Nat) (tk : List String),
      (refPositional j ks tk).filter (fun d => d.isCount) = [] := by
  intro ks
  induction ks with
  | nil => intro j tk; simp [refPositional]
  | cons k ks ih =>
      intro j tk
      rw [refPositional, List.filter_append, ih]
      rcases h : tk.get? j with _ | tkk
      · simp [RefIssue.isCount]
      · by_cases hne : k ≠ tkk <;> simp [hne, RefIssue.isCount]

theorem filterMap_dangling_filter (rs : List RefEntry) (keys : List String)
    (p : RefIssue → Bool) (hp : ∀ k l, p (.dangling_reference k l) = false) :
    ((rs.filterMap (fun r =>
        if !keys.contains r.key then
          some (RefIssue.dangling_reference r.key r.line)
        else none)).filter p) = [] := by
  rw [List.filter_eq_nil_iff]
  intro d hd
  obtain ⟨r, hr, hf⟩ := List.mem_filterMap.1 hd
  by_cases h : keys.contains r.key
  · rw [if_neg (by rw [h]; simp)] at hf
    cases hf
  · have h0 : keys.contains r.key = false := by simpa using h
    rw [if_pos (by rw [h0]; rfl)] at hf
    rw [← Option.some.inj hf]
    simp [hp]

/-- `check_reference_integrity` with its Python locals inlined
(definitional). -/
theorem check_reference_integrity_eq (s t : Inventory) :
    check_reference_integrity s t =
      (if (s.labels.map Prod.fst).filter
            (fun k => !(t.labels.map Prod.fst).contains k) ≠ [] then
        [RefIssue.missing_labels ((s.labels.map Prod.fst).filter
            (fun k => !(t.labels.map Prod.fst).contains k))]
      else [])
      ++ (if (t.labels.map Prod.fst).filter
            (fun k => !(s.labels.map Prod.fst).contains k) ≠ [] then
        [RefIssue.extra_labels ((t.labels.map Prod.fst).filter
            (fun k => !(s.labels.map Prod.fst).contains k))]
      else [])
      ++ (if (s.references.map RefEntry.key).length
            ≠ (t.references.map RefEntry.key).length then
        [RefIssue.reference_count_mismatch (s.references.map RefEntry.key).length
          (t.references.map RefEntry.key).length]
      else [])
      ++ refPositional 0 (s.references.map RefEntry.key)
          (t.references.map RefEntry.key)
      ++ (t.references.filterMap (fun r =>
            if !(t.labels.map Prod.fst).contains r.key then
              some (RefIssue.dangling_reference r.key r.line)
            else none)) := rfl

/-- The concrete source inventory of the claim's example: references
`[("a",1),("b",2)]` (labels `a`, `b` present so that only the positional
check fires). -/
def refExS : Inventory := ⟨[], [], [], [("a", 0), ("b", 0)], [⟨"a", 1⟩, ⟨"b", 2⟩]⟩

/-- The concrete target inventory of the claim's example: references
`[("b",1),("a",2)]` — same key set, swapped order. -/
def refExT : Inventory := ⟨[], [], [], [("a", 0), ("b", 0)], [⟨"b", 1⟩, ⟨"a", 2⟩]⟩

/-- C7: `check_reference_integrity` performs a strict positional key
check not suppressed by a count mismatch: every index below both lengths
with differing keys contributes a `reference_key_mismatch` with the index
and both keys; every source index beyond the target length contributes
`missing_reference_in_target`; a `reference_count_mismatch` is emitted
exactly when the lengths differ; and on the example
`[("a",1),("b",2)]` vs `[("b",1),("a",2)]` the output holds exactly the
two key-mismatch records (indices 0 and 1) and no count record. -/
theorem C7_positional_reference_check (s t : Inventory) :
    (∀ i sk tk, (s.references.map RefEntry.key).get? i = some sk →
        (t.references.map RefEntry.key).get? i = some tk → sk ≠ tk →
        RefIssue.reference_key_mismatch i sk tk ∈ check_reference_integrity s t)
    ∧ (∀ i sk, (s.references.map RefEntry.key).get? i = some sk →
        t.references.length ≤ i →
        RefIssue.missing_reference_in_target sk ∈ check_reference_integrity s t)
    ∧ ((check_reference_integrity s t).filter (fun d => d.isCount)
        = if s.references.length ≠ t.references.length then
            [.reference_count_mismatch s.references.length t.references.length]
          else [])
    ∧ ((check_reference_integrity refExS refExT).filter (fun d => d.isKeyMismatch)
          = [.reference_key_mismatch 0 "a" "b", .reference_key_mismatch 1 "b" "a"]
        ∧ (check_reference_integrity refExS refExT).filter (fun d => d.isCount) = []) := by
  refine ⟨?_, ?_, ?_, by constructor <;> rfl⟩
  · intro i sk tk h1 h2 hne
    unfold check_reference_integrity
    simp only [List.mem_append]
    left; right
    have := refPositional_key_mem (s.references.map RefEntry.key) 0 i
      (t.references.map RefEntry.key) sk tk h1 (by simpa using h2) hne
    simpa using this
  · intro i sk h1 hlen
    unfold check_reference_integrity
    simp only [List.mem_append]
    left; right
    have hlen' : (t.references.map RefEntry.key).length ≤ 0 + i := by
      simpa using hlen
    exact refPositional_missing_mem (s.references.map RefEntry.key) 0 i
      (t.references.map RefEntry.key) sk h1 hlen'
  · have hdang := filterMap_dangling_filter t.references (t.labels.map Prod.fst)
      (fun d => d.isCount) (fun _ _ => rfl)
    rw [check_reference_integrity_eq]
    simp only [List.filter_append, refPositional_filter_count, hdang,
      List.append_nil, List.length_map]
    split_ifs with h1 h2 h3 <;> simp [RefIssue.isCount]

/-- C7 witness: the general positional statement applied at the example
pair for index 0 (`"a"` vs `"b"`). -/
theorem C7_positional_reference_check_witness :
    RefIssue.reference_key_mismatch 0 "a" "b"
      ∈ check_reference_integrity refExS refExT :=
  (C7_positional_reference_check refExS refExT).1 0 "a" "b" rfl rfl (by decide)

/-! ## Self-comparison: the kind checks and trailer checks never emit a
record when both nodes are the same value (they may still raise). -/

theorem kindChecks_self (p : String) (t : Json) (f : List (String × Json)) :
    ∀ l, kindChecks p t f f = Except.ok l → l = [] := by
  intro l h
  unfold kindChecks at h
  rcases hc : pyField f "c" with e | c1
  · rw [hc] at h
    simp only [jsonBeq_refl, Bool.not_true, Bool.and_false, except_bind_err,
      if_false] at h
    split_ifs at h <;> simp_all
  · rcases hl : pyLen c1 with e2 | n <;>
      rcases hv1 : pyIx c1 1 with e3 | v1 <;>
        rcases hv2 : pyIx c1 2 with e4 | v2 <;>
          rcases hv0 : pyIx c1 0 with e5 | v0 <;>
      (simp only [hc, hl, hv1, hv2, hv0, jsonBeq_refl, Bool.not_true,
          Bool.and_false, except_bind_ok, except_bind_err, if_false,
          List.nil_append, List.append_nil] at h
       split_ifs at h <;> simp_all)

theorem headerCheck_self (p : String) (t : Json) (f : List (String × Json)) :
    ∀ l, headerCheck p t f f = Except.ok l → l = [] := by
  intro l h
  unfold headerCheck at h
  rcases hc : pyField f "c" with e | c1
  · simp only [hc, except_bind_err] at h
    split_ifs at h <;> simp_all
  · rcases hv0 : pyIx c1 0 with e2 | v0
    · simp only [hc, hv0, except_bind_err, except_bind_ok] at h
      split_ifs at h <;> simp_all
    · simp only [hc, hv0, jsonBeq_refl, Bool.not_true, except_bind_err,
        except_bind_ok, if_false] at h
      split_ifs at h <;> simp_all

theorem listCheck_self (p : String) (t : Json) (f : List (String × Json)) :
    ∀ l, listCheck p t f f = Except.ok l → l = [] := by
  intro l h
  unfold listCheck at h
  rcases hc : pyField f "c" with e | c1
  · simp only [hc, except_bind_err] at h
    split_ifs at h <;> simp_all
  · rcases hv0 : pyIx c1 0 with e2 | v0
    · simp only [hc, hv0, except_bind_err, except_bind_ok] at h
      split_ifs at h <;> simp_all
    · rcases he1 : pyIx v0 0 with e3 | v1
      · simp only [hc, hv0, he1, except_bind_err, except_bind_ok] at h
        split_ifs at h <;> simp_all
      · rcases hk : pyKey v1 "t" with e4 | tv <;>
          (simp only [hc, hv0, he1, hk, jsonBeq_refl, Bool.not_true,
            except_bind_err, except_bind_ok, if_false] at h
           split_ifs at h <;> simp_all)

theorem trailerChecks_self (p : String) (t : Json) (f : List (String × Json)) :
    ∀ l, trailerChecks p t f f = Except.ok l → l = [] := by
  intro l h
  unfold trailerChecks at h
  rcases hh : headerCheck p t f f with e | hs
  · rw [hh] at h
    exact absurd h (by simp)
  · rw [hh] at h
    simp only [except_bind_ok] at h
    rcases hl : listCheck p t f f with e | ls
    · rw [hl] at h
      exact absurd h (by simp)
    · rw [hl] at h
      simp only [except_bind_ok] at h
      rw [headerCheck_self _ _ _ _ hh, listCheck_self _ _ _ _ hl] at h
      simpa using (Except.ok.inj h).symm

/-- Whenever `_compare_node` terminates normally on two identical
arguments, it appends no difference record (and likewise for the child
loop on two identical lists). -/
theorem compare_self_all :
    (∀ (p : String) (n1 n2 : Json), n1 = n2 →
        ∀ l, compareNode p n1 n2 = Except.ok l → l = [])
    ∧ (∀ (p : String) (i : Nat) (xs ys : List Json), xs = ys →
        ∀ l, compareChildren p i xs ys = Except.ok l → l = []) := by
  apply compareNode.mutual_induct
  · intro p _ l h
    simp [compareNode] at h
    exact h
  · intro p n2' hfalse heq l h
    exact (hfalse heq.symm).elim
  · intro p n1' hfalse _ heq l h
    exact (hfalse heq).elim
  · intro p f1 f2 hcond heq l h
    injection heq with hf
    subst hf
    rw [jsonBeq_refl] at hcond
    simp at hcond
  · intro p f1 f2 hcond ih heq l h
    injection heq with hf
    subst hf
    rw [compareNode] at h
    rw [if_neg hcond] at h
    rcases hk : kindChecks p (pyGet f1 "t") f1 f1 with e | ks
    · rw [hk] at h
      exact absurd h (by simp)
    · have hks := kindChecks_self _ _ _ _ hk
      subst hks
      rw [hk] at h
      simp only [except_bind_ok] at h
      split at h
      case h_1 =>
        rename_i xs ys heq1 heq2
        rw [heq1] at heq2
        injection heq2 with heq3
        injection heq3 with heq4
        subst heq4
        rcases hcc : compareChildren p 0 xs xs with e | cs
        · rw [hcc] at h
          exact absurd h (by simp)
        · have hcs := ih xs xs heq1 rfl cs hcc
          subst hcs
          rw [hcc] at h
          simp only [except_bind_ok] at h
          rcases ht : trailerChecks p (pyGet f1 "t") f1 f1 with e | ts
          · rw [ht] at h
            exact absurd h (by simp)
          · have hts := trailerChecks_self _ _ _ _ ht
            subst hts
            rw [ht] at h
            simpa using (Except.ok.inj h).symm
      case h_2 =>
        rename_i v1 v2 hnl heq1 heq2
        rw [heq1] at heq2
        injection heq2 with heq3
        subst heq3
        rw [jsonBeq_refl] at h
        simp only [Bool.not_true, if_false] at h
        rcases ht : trailerChecks p (pyGet f1 "t") f1 f1 with e | ts
        · rw [ht] at h
          exact absurd h (by simp)
        · have hts := trailerChecks_self _ _ _ _ ht
          subst hts
          rw [ht] at h
          simpa using (Except.ok.inj h).symm
      case h_3 =>
        rcases ht : trailerChecks p (pyGet f1 "t") f1 f1 with e | ts
        · rw [ht] at h
          exact absurd h (by simp)
        · have hts := trailerChecks_self _ _ _ _ ht
          subst hts
          rw [ht] at h
          simpa using (Except.ok.inj h).symm
  · intro p n1 n2 h1 h2 _ h4 heq l h
    subst heq
    rcases n1 with _ | b | n | s | xs | fs
    · exact (h1 rfl).elim
    · simp [compareNode] at h
    · simp [compareNode] at h
    · simp [compareNode] at h
    · simp [compareNode] at h
    · exact (h4 fs fs rfl rfl).elim
  · intro p i _ l h
    simp [compareChildren] at h
    exact h
  · intro p i y ys' heq l h
    simp at heq
  · intro p i x xs' heq l h
    simp at heq
  · intro p i x xs' y ys' ih1 ih2 heq l h
    simp only [List.cons.injEq] at heq
    obtain ⟨hxy, hxs⟩ := heq
    subst hxy
    subst hxs
    rw [compareChildren] at h
    rcases hr : compareNode (childPath p i) x x with e | r
    · rw [hr] at h
      exact absurd h (by simp)
    · have hre := ih1 rfl r hr
      subst hre
      rw [hr] at h
      simp only [except_bind_ok] at h
      rcases hrest : compareChildren p (i + 1) xs' xs' with e | rest
      · rw [hrest] at h
        exact absurd h (by simp)
      · have hrests := ih2 rfl rest hrest
        subst hrests
        rw [hrest] at h
        simpa using (Except.ok.inj h).symm

/-- C3, counterexample: self-comparison does not return the empty
difference sequence on every tree — on a `Math` node without a content
field, `compare_pandoc_asts(T, T)` raises `KeyError`
(line 43 of `struct_evaluator.py` indexes `node1['c']` unconditionally)
instead of returning `[]`. -/
theorem C3_counterexample :
    compare_pandoc_asts (.obj [("t", .str "Math")]) (.obj [("t", .str "Math")])
      = Except.error "KeyError" := by
  simp [compare_pandoc_asts, compareNode, kindChecks, trailerChecks, headerCheck, listCheck, pyGet,
    pyField, lookupField, jsonBeq, jsonBeqList, jsonBeqFields]

/-- C3 (amended): whenever `compare_pandoc_asts(T, T)` terminates
normally, it returns the empty difference sequence; on some trees
(e.g. a `Math` node without a content field) self-comparison raises
instead of returning. -/
theorem C3_self_compare_empty (T : Json) (l : List Diff)
    (h : compare_pandoc_asts T T = Except.ok l) : l = [] :=
  compare_self_all.1 "root" T T rfl l h

/-- C3 witness: at a concrete one-node document the self-comparison
evaluates to a normal result, and the amended theorem applies to give the
empty sequence. -/
theorem C3_self_compare_empty_witness :
    compare_pandoc_asts (.obj [("t", .str "Str"), ("c", .str "hello")])
        (.obj [("t", .str "Str"), ("c", .str "hello")]) = Except.ok []
    ∧ ∀ l, compare_pandoc_asts (.obj [("t", .str "Str"), ("c", .str "hello")])
        (.obj [("t", .str "Str"), ("c", .str "hello")]) = Except.ok l → l = [] :=
  ⟨by simp [compare_pandoc_asts, compareNode, kindChecks, trailerChecks, headerCheck, listCheck, pyGet,
      pyField, lookupField, jsonBeq, jsonBeqList, jsonBeqFields],
   fun l h => C3_self_compare_empty _ l h⟩


/-- C9: the stop cases of `_compare_node` (lines 15-27 of
`struct_evaluator.py`).  When exactly one node is absent (`None`), the
output is the single `extra_node`/`missing_node` record at that path
carrying the surviving node, with no recursion below; when both are
present (dicts) with differing `t` tags, the output is the single
`type_mismatch` record carrying both tags, with no recursion below. -/
theorem C9_absent_and_type_mismatch_stop (p : String) (n1 n2 : Json) :
    (n1 = Json.null → n2 ≠ Json.null →
      compareNode p n1 n2 = Except.ok [.extra_node p n2])
    ∧ (n1 ≠ Json.null → n2 = Json.null →
      compareNode p n1 n2 = Except.ok [.missing_node p n1])
    ∧ (∀ f1 f2, n1 = Json.obj f1 → n2 = Json.obj f2 →
        pyGet f1 "t" ≠ pyGet f2 "t" →
        compareNode p n1 n2
          = Except.ok [.type_mismatch p (pyGet f1 "t") (pyGet f2 "t")]) := by
  refine ⟨?_, ?_, ?_⟩
  · rintro rfl hne
    rcases n2 with _ | b | n | s | xs | fs
    · exact absurd rfl hne
    all_goals simp [compareNode]
  · rintro hne rfl
    rcases n1 with _ | b | n | s | xs | fs
    · exact absurd rfl hne
    all_goals simp [compareNode]
  · rintro f1 f2 rfl rfl hne
    have hb : jsonBeq (pyGet f1 "t") (pyGet f2 "t") = false := (jsonBeq_ne _ _).2 hne
    rw [compareNode]
    rw [if_pos (by rw [hb]; rfl)]

/-- C9 witness: the three stop cases at concrete nodes. -/
theorem C9_absent_and_type_mismatch_stop_witness :
    compareNode "root" Json.null (Json.obj [("t", Json.str "Str")])
      = Except.ok [.extra_node "root" (Json.obj [("t", Json.str "Str")])]
    ∧ compareNode "root" (Json.obj [("t", Json.str "Str")]) Json.null
      = Except.ok [.missing_node "root" (Json.obj [("t", Json.str "Str")])]
    ∧ compareNode "root" (Json.obj [("t", Json.str "Str")])
        (Json.obj [("t", Json.str "Para")])
      = Except.ok [.type_mismatch "root" (Json.str "Str") (Json.str "Para")] := by
  refine ⟨(C9_absent_and_type_mismatch_stop "root" _ _).1 rfl (by simp),
    (C9_absent_and_type_mismatch_stop "root" _ _).2.1 (by simp) rfl, ?_⟩
  have h := (C9_absent_and_type_mismatch_stop "root" _ _).2.2
    [("t", Json.str "Str")] [("t", Json.str "Para")] rfl rfl
    (by simp [pyGet, lookupField])
  simpa [pyGet, lookupField] using h


/-! ## Well-formed node shapes (sufficient for the comparator not to
raise), for claim C1 -/

/-- The length of the `c` field when it is present and is a list. -/
def cListLen (fields : List (String × Json)) : Option Nat :=
  match lookupField fields "c" with
  | some (.list xs) => some xs.length
  | _ => none

/-- Content-shape conditions under which the kind-specific accesses of
`_compare_node` are safe for a dict with these fields: kinds whose checks
index `c` unconditionally carry a list of sufficient length (`Math`
variants at least 2, `Link`/`Citation` at least 3, `Header` at least 1,
`Image` any list), and no node has kind `List` (its `c[0][0]['t']` chain
always raises on JSON object values). -/
def kindShapeOk (fields : List (String × Json)) : Bool :=
  if jsonBeq (pyGet fields "t") (.str "Image") then (cListLen fields).isSome
  else if jsonBeq (pyGet fields "t") (.str "Math")
      || jsonBeq (pyGet fields "t") (.str "DisplayMath")
      || jsonBeq (pyGet fields "t") (.str "InlineMath") then
    match cListLen fields with
    | some n => decide (2 ≤ n)
    | none => false
  else if jsonBeq (pyGet fields "t") (.str "Link")
      || jsonBeq (pyGet fields "t") (.str "Citation") then
    match cListLen fields with
    | some n => decide (3 ≤ n)
    | none => false
  else if jsonBeq (pyGet fields "t") (.str "Header") then
    match cListLen fields with
    | some n => decide (1 ≤ n)
    | none => false
  else if jsonBeq (pyGet fields "t") (.str "List") then false
  else true

mutual

/-- Trees on which the comparator never raises: the node is `None` or a
dict whose list-valued content (if any) holds only well-formed nodes and
whose kind-specific shape is safe. -/
def wfNode : Json → Bool
  | .null => true
  | .obj fields =>
      (match hcw : lookupField fields "c" with
       | some (.list xs) => wfList xs
       | _ => true)
      && kindShapeOk fields
  | _ => false
termination_by n => sizeOf n
decreasing_by
  have h := lookupField_sizeOf hcw
  simp at h ⊢
  omega

/-- `wfNode` on every element. -/
def wfList : List Json → Bool
  | [] => true
  | x :: xs => wfNode x && wfList xs
termination_by l => sizeOf l
decreasing_by
  all_goals simp <;> omega

end

theorem cListLen_some {f : List (String × Json)} {n : Nat}
    (h : cListLen f = some n) :
    ∃ xs, lookupField f "c" = some (Json.list xs) ∧ xs.length = n := by
  unfold cListLen at h
  split at h
  next xs heq => exact ⟨xs, heq, by injection h⟩
  next => cases h

theorem pyIx_list_ok {xs : List Json} {i : Nat} (h : i < xs.length) :
    ∃ v, pyIx (Json.list xs) i = Except.ok v := by
  rcases hg : xs.get? i with _ | v
  · rw [List.get?_eq_none] at hg
    omega
  · refine ⟨v, ?_⟩
    show (match xs.get? i with
      | some v => Except.ok v
      | none => Except.error "IndexError") = Except.ok v
    rw [hg]

theorem wfNode_obj {f : List (String × Json)} (h : wfNode (.obj f) = true) :
    kindShapeOk f = true
      ∧ ∀ xs, lookupField f "c" = some (Json.list xs) → wfList xs = true := by
  rw [wfNode] at h
  rw [Bool.and_eq_true] at h
  obtain ⟨hm, hks⟩ := h
  refine ⟨hks, fun xs hxs => ?_⟩
  split at hm
  next ys heq =>
    rw [heq] at hxs
    injection hxs with h1
    injection h1 with h2
    rw [← h2]
    exact hm
  next =>
    rename_i hx
    exact (hx xs hxs).elim


theorem kindChecks_wf (p : String) (f1 f2 : List (String × Json))
    (hs1 : kindShapeOk f1 = true) (hs2 : kindShapeOk f2 = true)
    (ht : pyGet f1 "t" = pyGet f2 "t") :
    ∃ l, kindChecks p (pyGet f1 "t") f1 f2 = Except.ok l := by
  unfold kindChecks
  unfold kindShapeOk at hs1 hs2
  rw [← ht] at hs2
  split_ifs with hA hB hC hD hE
  · exact ⟨_, rfl⟩
  · exact ⟨_, rfl⟩
  · -- Image
    have hv := (jsonBeq_eq _ _).1 hC
    rw [hv] at hs1 hs2
    simp only [jsonBeq, if_pos] at hs1 hs2
    obtain ⟨n1, hn1⟩ := Option.isSome_iff_exists.1 (by simpa using hs1)
    obtain ⟨n2, hn2⟩ := Option.isSome_iff_exists.1 (by simpa using hs2)
    obtain ⟨xs1, hlk1, hlen1⟩ := cListLen_some hn1
    obtain ⟨xs2, hlk2, hlen2⟩ := cListLen_some hn2
    have hf1 : pyField f1 "c" = Except.ok (Json.list xs1) := by
      unfold pyField; rw [hlk1]
    have hf2 : pyField f2 "c" = Except.ok (Json.list xs2) := by
      unfold pyField; rw [hlk2]
    rw [hf1]
    simp only [except_bind_ok]
    rw [show pyLen (Json.list xs1) = Except.ok xs1.length from rfl]
    simp only [except_bind_ok]
    by_cases hgt1 : xs1.length > 1
    · rw [if_pos hgt1, hf2]
      simp only [except_bind_ok]
      rw [show pyLen (Json.list xs2) = Except.ok xs2.length from rfl]
      simp only [except_bind_ok]
      by_cases hgt2 : xs2.length > 1
      · rw [if_pos hgt2]
        obtain ⟨v1, hv1⟩ := @pyIx_list_ok xs1 1 (by omega)
        obtain ⟨v2, hv2⟩ := @pyIx_list_ok xs2 1 (by omega)
        rw [hv1]
        simp only [except_bind_ok]
        rw [hv2]
        simp only [except_bind_ok]
        by_cases hb : (!jsonBeq v1 v2) = true
        · rw [if_pos hb]; exact ⟨_, rfl⟩
        · rw [if_neg hb]; exact ⟨_, rfl⟩
      · rw [if_neg hgt2]; exact ⟨_, rfl⟩
    · rw [if_neg hgt1]; exact ⟨_, rfl⟩
  · -- Math / DisplayMath / InlineMath
    have hvd : pyGet f1 "t" = Json.str "Math"
        ∨ pyGet f1 "t" = Json.str "DisplayMath"
        ∨ pyGet f1 "t" = Json.str "InlineMath" := by
      rcases Bool.or_eq_true_iff.1 hD with h | h
      · rcases Bool.or_eq_true_iff.1 h with h' | h'
        · exact Or.inl ((jsonBeq_eq _ _).1 h')
        · exact Or.inr (Or.inl ((jsonBeq_eq _ _).1 h'))
      · exact Or.inr (Or.inr ((jsonBeq_eq _ _).1 h))
    have hmn : ∀ g : List (String × Json),
        (if jsonBeq (pyGet f1 "t") (Json.str "Image") then (cListLen g).isSome
         else if jsonBeq (pyGet f1 "t") (Json.str "Math")
            || jsonBeq (pyGet f1 "t") (Json.str "DisplayMath")
            || jsonBeq (pyGet f1 "t") (Json.str "InlineMath") then
           match cListLen g with
           | some n => decide (2 ≤ n)
           | none => false
         else if jsonBeq (pyGet f1 "t") (Json.str "Link")
            || jsonBeq (pyGet f1 "t") (Json.str "Citation") then
           match cListLen g with
           | some n => decide (3 ≤ n)
           | none => false
         else if jsonBeq (pyGet f1 "t") (Json.str "Header") then
           match cListLen g with
           | some n => decide (1 ≤ n)
           | none => false
         else if jsonBeq (pyGet f1 "t") (Json.str "List") then false
         else true) = true →
        ∃ n, cListLen g = some n ∧ 2 ≤ n := by
      intro g hg
      rcases hvd with hv | hv | hv <;>
        (rw [hv] at hg
         simp only [jsonBeq] at hg
         norm_num at hg
         rcases hcl : cListLen g with _ | n
         · rw [hcl] at hg; simp at hg
         · rw [hcl] at hg; simp at hg; exact ⟨n, rfl, hg⟩)
    obtain ⟨n1, hn1, hge1⟩ := hmn f1 hs1
    obtain ⟨n2, hn2, hge2⟩ := hmn f2 hs2
    obtain ⟨xs1, hlk1, hlen1⟩ := cListLen_some hn1
    obtain ⟨xs2, hlk2, hlen2⟩ := cListLen_some hn2
    have hf1 : pyField f1 "c" = Except.ok (Json.list xs1) := by
      unfold pyField; rw [hlk1]
    have hf2 : pyField f2 "c" = Except.ok (Json.list xs2) := by
      unfold pyField; rw [hlk2]
    obtain ⟨v1, hv1⟩ := @pyIx_list_ok xs1 1 (by omega)
    obtain ⟨v2, hv2⟩ := @pyIx_list_ok xs2 1 (by omega)
    rw [hf1]
    simp only [except_bind_ok]
    rw [hv1]
    simp only [except_bind_ok]
    rw [hf2]
    simp only [except_bind_ok]
    rw [hv2]
    simp only [except_bind_ok]
    by_cases hb : (!jsonBeq v1 v2) = true
    · rw [if_pos hb]; exact ⟨_, rfl⟩
    · rw [if_neg hb]; exact ⟨_, rfl⟩
  · -- Link / Citation
    have hvd : pyGet f1 "t" = Json.str "Link"
        ∨ pyGet f1 "t" = Json.str "Citation" := by
      rcases Bool.or_eq_true_iff.1 hE with h | h
      · exact Or.inl ((jsonBeq_eq _ _).1 h)
      · exact Or.inr ((jsonBeq_eq _ _).1 h)
    have hmn : ∀ g : List (String × Json),
        (if jsonBeq (pyGet f1 "t") (Json.str "Image") then (cListLen g).isSome
         else if jsonBeq (pyGet f1 "t") (Json.str "Math")
            || jsonBeq (pyGet f1 "t") (Json.str "DisplayMath")
            || jsonBeq (pyGet f1 "t") (Json.str "InlineMath") then
           match cListLen g with
           | some n => decide (2 ≤ n)
           | none => false
         else if jsonBeq (pyGet f1 "t") (Json.str "Link")
            || jsonBeq (pyGet f1 "t") (Json.str "Citation") then
           match cListLen g with
           | some n => decide (3 ≤ n)
           | none => false
         else if jsonBeq (pyGet f1 "t") (Json.str "Header") then
           match cListLen g with
           | some n => decide (1 ≤ n)
           | none => false
         else if jsonBeq (pyGet f1 "t") (Json.str "List") then false
         else true) = true →
        ∃ n, cListLen g = some n ∧ 3 ≤ n := by
      intro g hg
      rcases hvd with hv | hv <;>
        (rw [hv] at hg
         simp only [jsonBeq] at hg
         norm_num at hg
         rcases hcl : cListLen g with _ | n
         · rw [hcl] at hg; simp at hg
         · rw [hcl] at hg; simp at hg; exact ⟨n, rfl, hg⟩)
    obtain ⟨n1, hn1, hge1⟩ := hmn f1 hs1
    obtain ⟨n2, hn2, hge2⟩ := hmn f2 hs2
    obtain ⟨xs1, hlk1, hlen1⟩ := cListLen_some hn1
    obtain ⟨xs2, hlk2, hlen2⟩ := cListLen_some hn2
    have hf1 : pyField f1 "c" = Except.ok (Json.list xs1) := by
      unfold pyField; rw [hlk1]
    have hf2 : pyField f2 "c" = Except.ok (Json.list xs2) := by
      unfold pyField; rw [hlk2]
    obtain ⟨a1, ha1⟩ := @pyIx_list_ok xs1 2 (by omega)
    obtain ⟨a2, ha2⟩ := @pyIx_list_ok xs2 2 (by omega)
    obtain ⟨b1, hb1⟩ := @pyIx_list_ok xs1 0 (by omega)
    obtain ⟨b2, hb2⟩ := @pyIx_list_ok xs2 0 (by omega)
    rw [hf1]
    simp only [except_bind_ok]
    rw [ha1]
    simp only [except_bind_ok]
    rw [hf2]
    simp only [except_bind_ok]
    rw [ha2]
    simp only [except_bind_ok]
    rw [hb1]
    simp only [except_bind_ok]
    rw [hb2]
    simp only [except_bind_ok]
    exact ⟨_, rfl⟩
  · exact ⟨_, rfl⟩


theorem trailerChecks_wf (p : String) (f1 f2 : List (String × Json))
    (hs1 : kindShapeOk f1 = true) (hs2 : kindShapeOk f2 = true)
    (ht : pyGet f1 "t" = pyGet f2 "t") :
    ∃ l, trailerChecks p (pyGet f1 "t") f1 f2 = Except.ok l := by
  unfold kindShapeOk at hs1 hs2
  rw [← ht] at hs2
  have hhdr : ∃ hs, headerCheck p (pyGet f1 "t") f1 f2 = Except.ok hs := by
    unfold headerCheck
    by_cases hH : jsonBeq (pyGet f1 "t") (Json.str "Header") = true
    · have hv := (jsonBeq_eq _ _).1 hH
      rw [hv] at hs1 hs2 ⊢
      simp only [jsonBeq] at hs1 hs2
      norm_num at hs1 hs2
      rcases hcl1 : cListLen f1 with _ | n1
      · rw [hcl1] at hs1; simp at hs1
      · rw [hcl1] at hs1
        simp at hs1
        rcases hcl2 : cListLen f2 with _ | n2
        · rw [hcl2] at hs2; simp at hs2
        · rw [hcl2] at hs2
          simp at hs2
          obtain ⟨xs1, hlk1, hlen1⟩ := cListLen_some hcl1
          obtain ⟨xs2, hlk2, hlen2⟩ := cListLen_some hcl2
          have hf1 : pyField f1 "c" = Except.ok (Json.list xs1) := by
            unfold pyField; rw [hlk1]
          have hf2 : pyField f2 "c" = Except.ok (Json.list xs2) := by
            unfold pyField; rw [hlk2]
          obtain ⟨v1, hv1⟩ := @pyIx_list_ok xs1 0 (by omega)
          obtain ⟨v2, hv2⟩ := @pyIx_list_ok xs2 0 (by omega)
          rw [if_pos (show jsonBeq (Json.str "Header") (Json.str "Header") = true
            by decide)]
          rw [hf1]
          simp only [except_bind_ok]
          rw [hv1]
          simp only [except_bind_ok]
          rw [hf2]
          simp only [except_bind_ok]
          rw [hv2]
          simp only [except_bind_ok]
          by_cases hb : (!jsonBeq v1 v2) = true
          · rw [if_pos hb]
            exact ⟨_, rfl⟩
          · rw [if_neg hb]
            exact ⟨_, rfl⟩
    · rw [if_neg hH]
      exact ⟨_, rfl⟩
  have hlst : listCheck p (pyGet f1 "t") f1 f2 = Except.ok [] := by
    unfold listCheck
    by_cases hL : jsonBeq (pyGet f1 "t") (Json.str "List") = true
    · have hv := (jsonBeq_eq _ _).1 hL
      rw [hv] at hs1
      simp [jsonBeq] at hs1
    · rw [if_neg hL]
  obtain ⟨hs, hh⟩ := hhdr
  refine ⟨hs ++ [], ?_⟩
  unfold trailerChecks
  rw [hh]
  simp only [except_bind_ok]
  rw [hlst]
  simp only [except_bind_ok]

/-- On well-formed trees the comparator (and its child loop) always
terminates normally. -/
theorem compare_total_all :
    (∀ (p : String) (n1 n2 : Json), wfNode n1 = true → wfNode n2 = true →
        ∃ l, compareNode p n1 n2 = Except.ok l)
    ∧ (∀ (p : String) (i : Nat) (xs ys : List Json),
        wfList xs = true → wfList ys = true →
        ∃ l, compareChildren p i xs ys = Except.ok l) := by
  apply compareNode.mutual_induct
  · intro p _ _
    exact ⟨[], by simp [compareNode]⟩
  · intro p n2' hne _ _
    rcases n2' with _ | b | n | s | xs | fs
    · exact (hne rfl).elim
    all_goals exact ⟨_, by rw [compareNode] <;> exact hne⟩
  · intro p n1' hne _ _ _
    rcases n1' with _ | b | n | s | xs | fs
    · exact (hne rfl).elim
    all_goals exact ⟨_, by rw [compareNode] <;> exact hne⟩
  · intro p f1 f2 hcond _ _
    exact ⟨_, by rw [compareNode]; rw [if_pos hcond]⟩
  · intro p f1 f2 hcond ih hw1 hw2
    obtain ⟨hks1, hch1⟩ := wfNode_obj hw1
    obtain ⟨hks2, hch2⟩ := wfNode_obj hw2
    have hbt : jsonBeq (pyGet f1 "t") (pyGet f2 "t") = true := by
      cases hb : jsonBeq (pyGet f1 "t") (pyGet f2 "t")
      · exact absurd (by rw [hb]; rfl) hcond
      · rfl
    have hteq : pyGet f1 "t" = pyGet f2 "t" := (jsonBeq_eq _ _).1 hbt
    rw [compareNode]
    rw [if_neg hcond]
    obtain ⟨ks, hks⟩ := kindChecks_wf p f1 f2 hks1 hks2 hteq
    rw [hks]
    simp only [except_bind_ok]
    obtain ⟨ts, hts⟩ := trailerChecks_wf p f1 f2 hks1 hks2 hteq
    split
    next xs ys heq1 heq2 =>
      obtain ⟨cs, hcs⟩ := ih xs ys heq1 (hch1 xs heq1) (hch2 ys heq2)
      simp only [hcs, except_bind_ok, hts]
      exact ⟨_, rfl⟩
    next v1 v2 hnl heq1 heq2 =>
      by_cases hb : (!jsonBeq v1 v2) = true
      · rw [if_pos hb]
        simp only [except_bind_ok, hts]
        exact ⟨_, rfl⟩
      · rw [if_neg hb]
        simp only [except_bind_ok, hts]
        exact ⟨_, rfl⟩
    next =>
      simp only [hts, except_bind_ok]
      exact ⟨_, rfl⟩
  · intro p n1 n2 h1 h2 _ h4 hw1 hw2
    rcases n1 with _ | b | n | s | xs | fs
    · exact (h1 rfl).elim
    · simp [wfNode] at hw1
    · simp [wfNode] at hw1
    · simp [wfNode] at hw1
    · simp [wfNode] at hw1
    · rcases n2 with _ | b2 | n2' | s2 | xs2 | fs2
      · exact (h2 rfl).elim
      · simp [wfNode] at hw2
      · simp [wfNode] at hw2
      · simp [wfNode] at hw2
      · simp [wfNode] at hw2
      · exact (h4 fs fs2 rfl rfl).elim
  · intro p i _ _
    exact ⟨[], by simp [compareChildren]⟩
  · intro p i y ys' _ _
    exact ⟨_, by rw [compareChildren]⟩
  · intro p i x xs' _ _
    exact ⟨_, by rw [compareChildren]⟩
  · intro p i x xs' y ys' ih1 ih2 hw1 hw2
    rw [wfList, Bool.and_eq_true] at hw1 hw2
    obtain ⟨r, hr⟩ := ih1 hw1.1 hw2.1
    obtain ⟨rest, hrest⟩ := ih2 hw1.2 hw2.2
    rw [compareChildren]
    simp only [hr, except_bind_ok, hrest]
    exact ⟨_, rfl⟩

/-- C1, counterexample: a `Link` node whose content list has fewer than
3 elements does NOT have its check skipped — `_compare_node` raises
`IndexError` at `node1['c'][2]` (line 47 of `struct_evaluator.py`)
instead of treating the absent field as "no check applicable". -/
theorem C1_counterexample :
    compare_pandoc_asts (.obj [("t", .str "Link"), ("c", .list [])])
      (.obj [("t", .str "Link"), ("c", .list [])]) = Except.error "IndexError" := by
  simp [compare_pandoc_asts, compareNode, kindChecks, trailerChecks, headerCheck, listCheck, pyGet,
    pyField, pyIx, lookupField, jsonBeq, jsonBeqList, jsonBeqFields]

/-- C1 (amended): `compare_pandoc_asts` terminates normally (no raised
exception) on every pair of well-formed trees — trees whose nodes are
JSON dicts or `None`, whose list contents hold only well-formed nodes,
and whose kind-implied content shapes are present (`wfNode`); a
`Str`/`Code`/`RawBlock` node without a content field is handled
gracefully through `.get`.  But a `Link`, `Citation` or `Math` node whose
content list is too short, or a `Header`/`List` node without the indexed
positions, raises rather than skipping the check
(`check_reference_integrity`, which consumes the typed inventories, is
total by construction). -/
theorem C1_compare_total_on_wf (n1 n2 : Json)
    (h1 : wfNode n1 = true) (h2 : wfNode n2 = true) :
    ∃ l, compare_pandoc_asts n1 n2 = Except.ok l :=
  compare_total_all.1 "root" n1 n2 h1 h2

/-- C1 witness: a well-formed `Link` node pair (content list of length 3)
compares without raising. -/
theorem C1_compare_total_on_wf_witness :
    ∃ l, compare_pandoc_asts
        (.obj [("t", .str "Link"), ("c", .list [.null, .null, .null])])
        (.obj [("t", .str "Link"), ("c", .list [.null, .null, .null])])
      = Except.ok l :=
  C1_compare_total_on_wf _ _
    (by simp [wfNode, wfList, kindShapeOk, cListLen, pyGet, lookupField,
      jsonBeq, jsonBeqList, jsonBeqFields])
    (by simp [wfNode, wfList, kindShapeOk, cListLen, pyGet, lookupField,
      jsonBeq, jsonBeqList, jsonBeqFields])


/-- C4, counterexample: two trees identical except that the code-span
node's content differs in a single character (`"ab"` vs `"ac"` inside the
content list).  Besides the `content_mismatch_Code` record at the node's
path `"root"`, the comparator recurses into the content list and emits an
`attribute_mismatch_c` record at `"root.c[0]"` — a child-diff record
strictly below the code node's path, so code nodes are not leaves for
diff emission. -/
theorem C4_counterexample :
    compare_pandoc_asts
        (.obj [("t", .str "Code"),
          ("c", .list [.obj [("t", .str "Str"), ("c", .str "ab")]])])
        (.obj [("t", .str "Code"),
          ("c", .list [.obj [("t", .str "Str"), ("c", .str "ac")]])])
      = Except.ok [.content_mismatch "root" "Code"
          (.list [.obj [("t", .str "Str"), ("c", .str "ab")]])
          (.list [.obj [("t", .str "Str"), ("c", .str "ac")]]),
        .attribute_mismatch_c "root.c[0]" (.str "ab") (.str "ac")] := by
  simp [compare_pandoc_asts, compareNode, compareChildren, kindChecks,
    trailerChecks, headerCheck, listCheck, pyGet, pyField, pyIx, lookupField,
    jsonBeq, jsonBeqList, jsonBeqFields, childPath, jsonAsStr] <;> decide

/-- C4 (amended): for a code-span node whose content is a non-list scalar
(a string), a content change yields exactly one `content_mismatch_Code`
record at the node's path, together with one `attribute_mismatch_c`
record at the same path (line 64's scalar comparison also fires), and no
record below the path; when the content is a list the comparator recurses
into it (lines 53-57) — code nodes are not leaves. -/
theorem C4_code_scalar_content (p : String) (s1 s2 : String) (h : s1 ≠ s2) :
    compareNode p (.obj [("t", .str "Code"), ("c", .str s1)])
        (.obj [("t", .str "Code"), ("c", .str s2)])
      = Except.ok [.content_mismatch p "Code" (.str s1) (.str s2),
          .attribute_mismatch_c p (.str s1) (.str s2)] := by
  have hb : (s1 == s2) = false := by
    rw [beq_eq_false_iff_ne]
    exact h
  simp [compareNode, kindChecks, trailerChecks, headerCheck, listCheck, pyGet,
    pyField, lookupField, jsonBeq, jsonAsStr, hb]

/-- C4 witness: the amended rule at `"x"` vs `"y"`. -/
theorem C4_code_scalar_content_witness :
    compareNode "root" (.obj [("t", .str "Code"), ("c", .str "x")])
        (.obj [("t", .str "Code"), ("c", .str "y")])
      = Except.ok [.content_mismatch "root" "Code" (.str "x") (.str "y"),
          .attribute_mismatch_c "root" (.str "x") (.str "y")] :=
  C4_code_scalar_content "root" "x" "y" (by decide)


/-! ## The LaTeX scan's modal flags (claims C2 and C8) -/

/-- C2, counterexample: a code-block-start line occurring inside an open
equation block sets `in_code` while `in_equation` is still set — the two
modal flags are NOT mutually exclusive on arbitrary inputs (the first
`elif` branch at line 110 of `src/document_parser.py` fires regardless of
the current mode). -/
theorem C2_counterexample :
    (scanLatexFrom 0 initState
        ["\\begin{equation}\n", "\\begin{lstlisting}\n"]).in_code = true
    ∧ (scanLatexFrom 0 initState
        ["\\begin{equation}\n", "\\begin{lstlisting}\n"]).in_equation = true := by
  constructor <;> rfl

/-- The three modal situations of the scan: outside any block, inside a
code block, inside an equation block. -/
inductive ScanMode where
  | normal
  | code
  | equation
deriving DecidableEq, Repr

/-- The intended block discipline, as a partial transition function: it
rejects (returns `none` for) exactly the inputs that open a code block
while an equation block is open or vice versa — mirroring the branch
order of the scan. -/
def stepMode (m : ScanMode) (l : String) : Option ScanMode :=
  match m with
  | .normal =>
      if matchesCodeStart l then some .code
      else if matchesEqStart l then some .equation
      else some .normal
  | .code =>
      if matchesCodeStart l then some .code
      else if matchesCodeEnd l then some .normal
      else if matchesEqStart l then none
      else some .code
  | .equation =>
      if matchesCodeStart l then none
      else if matchesEqStart l then some .equation
      else if matchesEqEnd l then some .normal
      else some .equation

/-- Run of the block-discipline machine over the lines. -/
def modeRun (m : ScanMode) : List String → Option ScanMode
  | [] => some m
  | l :: ls =>
      match stepMode m l with
      | some m' => modeRun m' ls
      | none => none

/-- The scan state's two flags express exactly the machine's mode. -/
def agrees (m : ScanMode) (st : ScanState) : Prop :=
  st.in_code = (m == ScanMode.code) ∧ st.in_equation = (m == ScanMode.equation)

theorem latexStep_sim (i : Nat) (st : ScanState) (l : String) (m m' : ScanMode)
    (hag : agrees m st) (hstep : stepMode m l = some m') :
    agrees m' (latexStep i st l) := by
  obtain ⟨hc, he⟩ := hag
  rcases m with _ | _ | _
  · have hc' : st.in_code = false := by simpa using hc
    have he' : st.in_equation = false := by simpa using he
    unfold stepMode at hstep
    unfold latexStep
    rw [hc', he']
    simp only [Bool.and_false, Bool.or_false, Bool.and_true, Bool.false_or,
      Bool.or_true, Bool.true_or, Bool.false_eq_true, if_false]
    split_ifs at hstep ⊢ <;>
      first
        | (exact Option.noConfusion hstep)
        | (injection hstep with h2; subst h2;
            exact ⟨by first | rfl | simp [hc', he'],
              by first | rfl | simp [hc', he']⟩)
  · have hc' : st.in_code = true := by simpa using hc
    have he' : st.in_equation = false := by simpa using he
    unfold stepMode at hstep
    unfold latexStep
    rw [hc', he']
    simp only [Bool.and_false, Bool.or_false, Bool.and_true, Bool.false_or,
      Bool.or_true, Bool.true_or, Bool.false_eq_true, if_false, if_true]
    split_ifs at hstep ⊢ <;>
      first
        | (exact Option.noConfusion hstep)
        | (injection hstep with h2; subst h2;
            exact ⟨by first | rfl | simp [hc', he'],
              by first | rfl | simp [hc', he']⟩)
  · have hc' : st.in_code = false := by simpa using hc
    have he' : st.in_equation = true := by simpa using he
    unfold stepMode at hstep
    unfold latexStep
    rw [hc', he']
    simp only [Bool.and_false, Bool.or_false, Bool.and_true, Bool.false_or,
      Bool.or_true, Bool.true_or, Bool.false_eq_true, if_false, if_true]
    split_ifs at hstep ⊢ <;>
      first
        | (exact Option.noConfusion hstep)
        | (injection hstep with h2; subst h2;
            exact ⟨by first | rfl | simp [hc', he'],
              by first | rfl | simp [hc', he']⟩)

theorem modeRun_append (a b : List String) (m : ScanMode) :
    modeRun m (a ++ b)
      = match modeRun m a with
        | some m' => modeRun m' b
        | none => none := by
  induction a generalizing m with
  | nil => simp [modeRun]
  | cons l ls ih =>
      rw [List.cons_append, modeRun]
      rcases hs : stepMode m l with _ | m1
      · rw [modeRun, hs]
      · rw [modeRun, hs]
        exact ih m1

theorem scan_sim :
    ∀ (lines : List String) (i : Nat) (st : ScanState) (m m' : ScanMode),
      agrees m st → modeRun m lines = some m' →
      agrees m' (scanLatexFrom i st lines) := by
  intro lines
  induction lines with
  | nil =>
      intro i st m m' hag h
      rw [modeRun] at h
      injection h with h'
      subst h'
      exact hag
  | cons l ls ih =>
      intro i st m m' hag h
      rw [modeRun] at h
      rcases hs : stepMode m l with _ | m1
      · rw [hs] at h; cases h
      · rw [hs] at h
        rw [scanLatexFrom]
        exact ih (i + 1) _ m1 m' (latexStep_sim i st l m m1 hag hs) h

/-- C2 (amended): the two modal flags are mutually exclusive throughout
the scan for every input that respects the block discipline (no
code-start delimiter line while an equation block is open and no
equation-start delimiter line while a code block is open, per
`stepMode`); on arbitrary inputs both flags can be set at once. -/
theorem C2_flags_exclusive_on_balanced (lines pre suf : List String)
    (hsplit : lines = pre ++ suf)
    (hrun : (modeRun ScanMode.normal lines).isSome = true) :
    ¬((scanLatexFrom 0 initState pre).in_code = true
      ∧ (scanLatexFrom 0 initState pre).in_equation = true) := by
  subst hsplit
  rw [modeRun_append] at hrun
  rcases hp : modeRun ScanMode.normal pre with _ | m'
  · rw [hp] at hrun
    simp at hrun
  · have hag0 : agrees ScanMode.normal initState := by
      constructor <;> rfl
    obtain ⟨hc, he⟩ := scan_sim pre 0 initState _ m' hag0 hp
    rintro ⟨h1, h2⟩
    rw [hc] at h1
    rw [he] at h2
    rcases m' <;> simp_all

/-- C2 witness for the amended statement: a properly closed equation
block followed by a code block; after the first two lines the flags are
not both set. -/
theorem C2_flags_exclusive_on_balanced_witness :
    ¬((scanLatexFrom 0 initState
        ["\\begin{equation}\n", "e\n"]).in_code = true
      ∧ (scanLatexFrom 0 initState
        ["\\begin{equation}\n", "e\n"]).in_equation = true) :=
  C2_flags_exclusive_on_balanced
    ["\\begin{equation}\n", "e\n", "\\end{equation}\n"]
    ["\\begin{equation}\n", "e\n"] ["\\end{equation}\n"] rfl (by decide)


theorem scanLatexFrom_append (a b : List String) (i : Nat) (st : ScanState) :
    scanLatexFrom i st (a ++ b)
      = scanLatexFrom (i + a.length) (scanLatexFrom i st a) b := by
  induction a generalizing i st with
  | nil => simp [scanLatexFrom]
  | cons l ls ih =>
      rw [List.cons_append, scanLatexFrom, ih, scanLatexFrom]
      congr 1
      simp
      omega

/-- Once a block is open, lines containing no closing delimiter of either
kind are only buffered (or reset the buffer): the accumulated inventory
never changes and some flag stays set. -/
theorem scan_stuck :
    ∀ (ls : List String) (i : Nat) (st : ScanState),
      (st.in_code || st.in_equation) = true →
      (∀ l ∈ ls, matchesCodeEnd l = false ∧ matchesEqEnd l = false) →
      (scanLatexFrom i st ls).content = st.content := by
  intro ls
  induction ls with
  | nil => intro i st _ _; rfl
  | cons l ls ih =>
      intro i st hopen hends
      obtain ⟨hce, hee⟩ := hends l (by simp)
      have hstep : (latexStep i st l).content = st.content
          ∧ ((latexStep i st l).in_code || (latexStep i st l).in_equation) = true := by
        unfold latexStep
        rw [hce, hee]
        simp only [Bool.false_and, Bool.false_eq_true, if_false]
        by_cases h1 : matchesCodeStart l = true
        · rw [if_pos h1]
          exact ⟨rfl, rfl⟩
        · rw [if_neg h1]
          by_cases h2 : matchesEqStart l = true
          · rw [if_pos h2]
            constructor
            · rfl
            · simp
          · rw [if_neg h2]
            rw [if_pos hopen]
            exact ⟨rfl, hopen⟩
      rw [scanLatexFrom]
      rw [ih (i + 1) _ hstep.2 (fun x hx => hends x (by simp [hx]))]
      exact hstep.1

/-- C8: an unterminated code/equation block contributes nothing.  If the
scan is outside any block after `pre`, a line opens a code or equation
block, and no closing delimiter of either kind occurs afterwards, then
the extracted inventory of the whole file equals that of `pre` alone —
the buffered partial content is silently discarded, spans closed earlier
(those of `pre`) are unaffected, and the extractor returns normally. -/
theorem C8_unterminated_block_dropped (pre : List String) (openLine : String)
    (rest : List String)
    (hnorm : (scanLatexFrom 0 initState pre).in_code = false
      ∧ (scanLatexFrom 0 initState pre).in_equation = false)
    (hopen : matchesCodeStart openLine = true ∨ matchesEqStart openLine = true)
    (hrest : ∀ l ∈ rest, matchesCodeEnd l = false ∧ matchesEqEnd l = false) :
    extract_special_blocks_latex (pre ++ openLine :: rest)
      = extract_special_blocks_latex pre := by
  obtain ⟨hc0, he0⟩ := hnorm
  unfold extract_special_blocks_latex
  rw [scanLatexFrom_append]
  rw [scanLatexFrom]
  have hstep : (latexStep (0 + pre.length) (scanLatexFrom 0 initState pre)
        openLine).content = (scanLatexFrom 0 initState pre).content
      ∧ ((latexStep (0 + pre.length) (scanLatexFrom 0 initState pre)
        openLine).in_code
          || (latexStep (0 + pre.length) (scanLatexFrom 0 initState pre)
        openLine).in_equation) = true := by
    unfold latexStep
    rcases hopen with hcs | hes
    · rw [if_pos hcs]
      exact ⟨rfl, rfl⟩
    · by_cases hcs : matchesCodeStart openLine = true
      · rw [if_pos hcs]
        exact ⟨rfl, rfl⟩
      · rw [if_neg hcs]
        rw [hc0]
        simp only [Bool.and_false, Bool.false_eq_true, if_false]
        rw [if_pos hes]
        constructor
        · rfl
        · simp
  rw [scan_stuck rest _ _ hstep.2 hrest]
  exact hstep.1

/-- C8 witness: a code block opened at the start of the file and never
closed yields the empty inventory, exactly as the empty file does. -/
theorem C8_unterminated_block_dropped_witness :
    extract_special_blocks_latex ["\\begin{lstlisting}\n", "x = 1\n"]
      = extract_special_blocks_latex [] :=
  C8_unterminated_block_dropped [] "\\begin{lstlisting}\n" ["x = 1\n"]
    ⟨rfl, rfl⟩ (Or.inl (by decide)) (by decide)


/-! ## Ordering of the comparator's output (claim C6) -/

/-- Every record appended by the kind-specific checks carries the current
path and is not one of the two trailer record types. -/
theorem kindChecks_shape (p : String) (t : Json) (f1 f2 : List (String × Json)) :
    ∀ l, kindChecks p t f1 f2 = Except.ok l →
      ∀ d ∈ l, d.path = p ∧ d.isTrailer = false := by
  intro l h d hd
  unfold kindChecks at h
  split_ifs at h with hA hB hC hD hE
  · rw [← Except.ok.inj h] at hd
    simp at hd
    subst hd
    exact ⟨rfl, rfl⟩
  · rw [← Except.ok.inj h] at hd
    simp at hd
  · -- Image
    rcases hc1 : pyField f1 "c" with e | c1
    · rw [hc1] at h; exact absurd h (by simp)
    · rw [hc1] at h
      simp only [except_bind_ok] at h
      rcases hl1 : pyLen c1 with e | n1
      · rw [hl1] at h; exact absurd h (by simp)
      · rw [hl1] at h
        simp only [except_bind_ok] at h
        split_ifs at h with hgt1
        · rcases hc2 : pyField f2 "c" with e | c2
          · rw [hc2] at h; exact absurd h (by simp)
          · rw [hc2] at h
            simp only [except_bind_ok] at h
            rcases hl2 : pyLen c2 with e | n2
            · rw [hl2] at h; exact absurd h (by simp)
            · rw [hl2] at h
              simp only [except_bind_ok] at h
              split_ifs at h with hgt2
              · rcases hv1 : pyIx c1 1 with e | v1
                · rw [hv1] at h; exact absurd h (by simp)
                · rw [hv1] at h
                  simp only [except_bind_ok] at h
                  rcases hv2 : pyIx c2 1 with e | v2
                  · rw [hv2] at h; exact absurd h (by simp)
                  · rw [hv2] at h
                    simp only [except_bind_ok] at h
                    split_ifs at h with hb
                    · rw [← Except.ok.inj h] at hd
                      simp at hd
                      subst hd
                      exact ⟨rfl, rfl⟩
                    · rw [← Except.ok.inj h] at hd
                      simp at hd
              · rw [← Except.ok.inj h] at hd
                simp at hd
        · rw [← Except.ok.inj h] at hd
          simp at hd
  · -- Math variants
    rcases hc1 : pyField f1 "c" with e | c1
    · rw [hc1] at h; exact absurd h (by simp)
    · rw [hc1] at h
      simp only [except_bind_ok] at h
      rcases hv1 : pyIx c1 1 with e | v1
      · rw [hv1] at h; exact absurd h (by simp)
      · rw [hv1] at h
        simp only [except_bind_ok] at h
        rcases hc2 : pyField f2 "c" with e | c2
        · rw [hc2] at h; exact absurd h (by simp)
        · rw [hc2] at h
          simp only [except_bind_ok] at h
          rcases hv2 : pyIx c2 1 with e | v2
          · rw [hv2] at h; exact absurd h (by simp)
          · rw [hv2] at h
            simp only [except_bind_ok] at h
            split_ifs at h with hb
            · rw [← Except.ok.inj h] at hd
              simp at hd
              subst hd
              exact ⟨rfl, rfl⟩
            · rw [← Except.ok.inj h] at hd
              simp at hd
  · -- Link / Citation
    rcases hc1 : pyField f1 "c" with e | c1
    · rw [hc1] at h; exact absurd h (by simp)
    · rw [hc1] at h
      simp only [except_bind_ok] at h
      rcases ha1 : pyIx c1 2 with e | a1
      · rw [ha1] at h; exact absurd h (by simp)
      · rw [ha1] at h
        simp only [except_bind_ok] at h
        rcases hc2 : pyField f2 "c" with e | c2
        · rw [hc2] at h; exact absurd h (by simp)
        · rw [hc2] at h
          simp only [except_bind_ok] at h
          rcases ha2 : pyIx c2 2 with e | a2
          · rw [ha2] at h; exact absurd h (by simp)
          · rw [ha2] at h
            simp only [except_bind_ok] at h
            rcases hb1 : pyIx c1 0 with e | b1
            · rw [hb1] at h; exact absurd h (by simp)
            · rw [hb1] at h
              simp only [except_bind_ok] at h
              rcases hb2 : pyIx c2 0 with e | b2
              · rw [hb2] at h; exact absurd h (by simp)
              · rw [hb2] at h
                simp only [except_bind_ok] at h
                split_ifs at h with h1 h2 h3
                all_goals rw [← Except.ok.inj h] at hd
                all_goals simp at hd
                all_goals
                  first
                    | (rcases hd with hd | hd <;> subst hd <;> exact ⟨rfl, rfl⟩)
                    | (subst hd; exact ⟨rfl, rfl⟩)
  · rw [← Except.ok.inj h] at hd
    simp at hd

/-- Inversion for a successful bind in the `Except` monad. -/
theorem exceptBind_ok {A B : Type} {x : Except String A} {f : A → Except String B}
    {b : B} (h : x >>= f = Except.ok b) :
    ∃ a, x = Except.ok a ∧ f a = Except.ok b := by
  cases x with
  | error e => exact absurd h (by simp)
  | ok a => exact ⟨a, rfl, by simpa using h⟩

/-- Every record appended by the header-level check carries the current
path and is a trailer record. -/
theorem headerCheck_shape (p : String) (t : Json) (f1 f2 : List (String × Json)) :
    ∀ l, headerCheck p t f1 f2 = Except.ok l →
      ∀ d ∈ l, d.path = p ∧ d.isTrailer = true := by
  intro l h d hd
  unfold headerCheck at h
  split_ifs at h
  · obtain ⟨c1, hc1, h⟩ := exceptBind_ok h
    obtain ⟨v1, hv1, h⟩ := exceptBind_ok h
    obtain ⟨c2, hc2, h⟩ := exceptBind_ok h
    obtain ⟨v2, hv2, h⟩ := exceptBind_ok h
    split_ifs at h
    · rw [← Except.ok.inj h] at hd
      simp at hd
      subst hd
      exact ⟨rfl, rfl⟩
    · rw [← Except.ok.inj h] at hd
      simp at hd
  · rw [← Except.ok.inj h] at hd
    simp at hd

/-- Every record appended by the list-type check carries the current
path and is a trailer record. -/
theorem listCheck_shape (p : String) (t : Json) (f1 f2 : List (String × Json)) :
    ∀ l, listCheck p t f1 f2 = Except.ok l →
      ∀ d ∈ l, d.path = p ∧ d.isTrailer = true := by
  intro l h d hd
  unfold listCheck at h
  split_ifs at h
  · obtain ⟨c1, hc1, h⟩ := exceptBind_ok h
    obtain ⟨e1, he1, h⟩ := exceptBind_ok h
    obtain ⟨e1x, he1x, h⟩ := exceptBind_ok h
    obtain ⟨t1, ht1, h⟩ := exceptBind_ok h
    obtain ⟨c2, hc2, h⟩ := exceptBind_ok h
    obtain ⟨e2, he2, h⟩ := exceptBind_ok h
    obtain ⟨e2x, he2x, h⟩ := exceptBind_ok h
    obtain ⟨t2, ht2, h⟩ := exceptBind_ok h
    split_ifs at h
    · rw [← Except.ok.inj h] at hd
      simp at hd
      subst hd
      exact ⟨rfl, rfl⟩
    · rw [← Except.ok.inj h] at hd
      simp at hd
  · rw [← Except.ok.inj h] at hd
    simp at hd

/-- Every record appended by the trailing header/list checks carries the
current path and is one of the two trailer record types. -/
theorem trailerChecks_shape (p : String) (t : Json) (f1 f2 : List (String × Json)) :
    ∀ l, trailerChecks p t f1 f2 = Except.ok l →
      ∀ d ∈ l, d.path = p ∧ d.isTrailer = true := by
  intro l h d hd
  unfold trailerChecks at h
  obtain ⟨hs, hh, h⟩ := exceptBind_ok h
  obtain ⟨ls, hl, h⟩ := exceptBind_ok h
  rw [← Except.ok.inj h] at hd
  rcases List.mem_append.1 hd with hm | hm
  · exact headerCheck_shape p t f1 f2 hs hh d hm
  · exact listCheck_shape p t f1 f2 ls hl d hm

/-- Every `missing_child` record of a source-surplus tail lies at a child
path of `p`. -/
theorem surplusMissing_path (p : String) :
    ∀ (xs : List Json) (i : Nat), ∀ d ∈ surplusMissing p i xs, ∃ s, d.path = p ++ s := by
  intro xs
  induction xs with
  | nil =>
      intro i d hd
      simp [surplusMissing] at hd
  | cons x xs' ih =>
      intro i d hd
      rw [surplusMissing] at hd
      rcases List.mem_cons.1 hd with hd | hd
      · subst hd
        exact ⟨".c[" ++ toString i ++ "]",
          by simp [Diff.path, childPath, String.append_assoc]⟩
      · exact ih (i + 1) d hd

/-- Every `extra_child` record of a target-surplus tail lies at a child
path of `p`. -/
theorem surplusExtra_path (p : String) :
    ∀ (ys : List Json) (i : Nat), ∀ d ∈ surplusExtra p i ys, ∃ s, d.path = p ++ s := by
  intro ys
  induction ys with
  | nil =>
      intro i d hd
      simp [surplusExtra] at hd
  | cons y ys' ih =>
      intro i d hd
      rw [surplusExtra] at hd
      rcases List.mem_cons.1 hd with hd | hd
      · subst hd
        exact ⟨".c[" ++ toString i ++ "]",
          by simp [Diff.path, childPath, String.append_assoc]⟩
      · exact ih (i + 1) d hd

/-- Every difference record produced by the comparator at path `p` (and
by the child loop at parent path `p`) carries a path extending `p`. -/
theorem compareNode_paths :
    (∀ (p : String) (n1 n2 : Json), ∀ l, compareNode p n1 n2 = Except.ok l →
        ∀ d ∈ l, ∃ s, d.path = p ++ s)
    ∧ (∀ (p : String) (i : Nat) (xs ys : List Json), ∀ l,
        compareChildren p i xs ys = Except.ok l →
        ∀ d ∈ l, ∃ s, d.path = p ++ s) := by
  apply compareNode.mutual_induct
  · intro p l h d hd
    simp [compareNode] at h
    subst h
    simp at hd
  · intro p n2' hne l h d hd
    rcases n2' with _ | b | n | s | xs | fs
    · exact (hne rfl).elim
    all_goals simp [compareNode] at h
    all_goals subst h
    all_goals simp at hd
    all_goals subst hd
    all_goals exact ⟨"", by simp [Diff.path, String.append_empty]⟩
  · intro p n1' hne hne2 l h d hd
    rcases n1' with _ | b | n | s | xs | fs
    · exact (hne rfl).elim
    all_goals simp [compareNode] at h
    all_goals subst h
    all_goals simp at hd
    all_goals subst hd
    all_goals exact ⟨"", by simp [Diff.path, String.append_empty]⟩
  · intro p f1 f2 hcond l h d hd
    rw [compareNode, if_pos hcond] at h
    rw [← Except.ok.inj h] at hd
    simp at hd
    subst hd
    exact ⟨"", by simp [Diff.path, String.append_empty]⟩
  · intro p f1 f2 hcond ih l h d hd
    rw [compareNode, if_neg hcond] at h
    obtain ⟨ks, hks, h⟩ := exceptBind_ok h
    have hksP := kindChecks_shape p (pyGet f1 "t") f1 f2 ks hks
    split at h
    · rename_i xs ys heq1 heq2
      obtain ⟨cs, hcs, h⟩ := exceptBind_ok h
      obtain ⟨ts, hts, h⟩ := exceptBind_ok h
      rw [← Except.ok.inj h] at hd
      have htsP := trailerChecks_shape p (pyGet f1 "t") f1 f2 ts hts
      rcases List.mem_append.1 hd with hm | hm
      · rcases List.mem_append.1 hm with hm' | hm'
        · exact ⟨"", by rw [(hksP d hm').1]; simp [String.append_empty]⟩
        · exact ih xs ys heq1 cs hcs d hm'
      · exact ⟨"", by rw [(htsP d hm).1]; simp [String.append_empty]⟩
    · rename_i v1 v2 hnl heq1 heq2
      split_ifs at h
      · simp only [except_bind_ok] at h
        obtain ⟨ts, hts, h⟩ := exceptBind_ok h
        rw [← Except.ok.inj h] at hd
        have htsP := trailerChecks_shape p (pyGet f1 "t") f1 f2 ts hts
        rcases List.mem_append.1 hd with hm | hm
        · rcases List.mem_append.1 hm with hm' | hm'
          · exact ⟨"", by rw [(hksP d hm').1]; simp [String.append_empty]⟩
          · simp at hm'
            subst hm'
            exact ⟨"", by simp [Diff.path, String.append_empty]⟩
        · exact ⟨"", by rw [(htsP d hm).1]; simp [String.append_empty]⟩
      · simp only [except_bind_ok] at h
        obtain ⟨ts, hts, h⟩ := exceptBind_ok h
        rw [← Except.ok.inj h] at hd
        have htsP := trailerChecks_shape p (pyGet f1 "t") f1 f2 ts hts
        rcases List.mem_append.1 hd with hm | hm
        · rcases List.mem_append.1 hm with hm' | hm'
          · exact ⟨"", by rw [(hksP d hm').1]; simp [String.append_empty]⟩
          · simp at hm'
        · exact ⟨"", by rw [(htsP d hm).1]; simp [String.append_empty]⟩
    · simp only [except_bind_ok] at h
      obtain ⟨ts, hts, h⟩ := exceptBind_ok h
      rw [← Except.ok.inj h] at hd
      have htsP := trailerChecks_shape p (pyGet f1 "t") f1 f2 ts hts
      rcases List.mem_append.1 hd with hm | hm
      · rcases List.mem_append.1 hm with hm' | hm'
        · exact ⟨"", by rw [(hksP d hm').1]; simp [String.append_empty]⟩
        · simp at hm'
      · exact ⟨"", by rw [(htsP d hm).1]; simp [String.append_empty]⟩
  · intro p n1 n2 h1 h2 h3 h4 l h d hd
    rcases n1 with _ | b | n | s | xs | fs
    · exact (h1 rfl).elim
    · rcases n2 with _ | b2 | n2' | s2 | xs2 | fs2
      · exact (h2 rfl).elim
      all_goals simp [compareNode] at h
    · rcases n2 with _ | b2 | n2' | s2 | xs2 | fs2
      · exact (h2 rfl).elim
      all_goals simp [compareNode] at h
    · rcases n2 with _ | b2 | n2' | s2 | xs2 | fs2
      · exact (h2 rfl).elim
      all_goals simp [compareNode] at h
    · rcases n2 with _ | b2 | n2' | s2 | xs2 | fs2
      · exact (h2 rfl).elim
      all_goals simp [compareNode] at h
    · rcases n2 with _ | b2 | n2' | s2 | xs2 | fs2
      · exact (h2 rfl).elim
      · simp [compareNode] at h
      · simp [compareNode] at h
      · simp [compareNode] at h
      · simp [compareNode] at h
      · exact (h4 fs fs2 rfl rfl).elim
  · intro p i l h d hd
    simp [compareChildren] at h
    subst h
    simp at hd
  · intro p i y ys' l h d hd
    rw [compareChildren] at h
    rw [← Except.ok.inj h] at hd
    exact surplusExtra_path p (y :: ys') i d hd
  · intro p i x xs' l h d hd
    rw [compareChildren] at h
    rw [← Except.ok.inj h] at hd
    exact surplusMissing_path p (x :: xs') i d hd
  · intro p i x xs' y ys' ih1 ih2 l h d hd
    rw [compareChildren] at h
    obtain ⟨r, hr, h⟩ := exceptBind_ok h
    obtain ⟨rest, hrest, h⟩ := exceptBind_ok h
    rw [← Except.ok.inj h] at hd
    rcases List.mem_append.1 hd with hm | hm
    · obtain ⟨s, hs⟩ := ih1 r hr d hm
      exact ⟨".c[" ++ toString i ++ "]" ++ s,
        by rw [hs]; simp [childPath, String.append_assoc]⟩
    · exact ih2 rest hrest d hm

/-- The `extra_child` tail decomposes into per-index blocks at the
successive child paths. -/
theorem surplusExtra_blocks (p : String) :
    ∀ (ys : List Json) (i : Nat), ∃ blocks : List (List Diff),
      surplusExtra p i ys = blocks.flatten ∧
      ∀ k, ∀ d ∈ blocks.getD k [], ∃ s, d.path = childPath p (i + k) ++ s := by
  intro ys
  induction ys with
  | nil =>
      intro i
      exact ⟨[], rfl, by intro k d hd; simp at hd⟩
  | cons y ys' ih =>
      intro i
      obtain ⟨blocks', hb, hp⟩ := ih (i + 1)
      refine ⟨[Diff.extra_child (childPath p i) y] :: blocks', ?_, ?_⟩
      · rw [surplusExtra, hb]
        rfl
      · intro k d hd
        cases k with
        | zero =>
            rw [List.getD_cons_zero] at hd
            simp at hd
            subst hd
            exact ⟨"", by simp [Diff.path, String.append_empty]⟩
        | succ k' =>
            rw [List.getD_cons_succ] at hd
            obtain ⟨s, hs⟩ := hp k' d hd
            refine ⟨s, ?_⟩
            rw [hs]
            have he : i + 1 + k' = i + (k' + 1) := by omega
            rw [he]

/-- The `missing_child` tail decomposes into per-index blocks at the
successive child paths. -/
theorem surplusMissing_blocks (p : String) :
    ∀ (xs : List Json) (i : Nat), ∃ blocks : List (List Diff),
      surplusMissing p i xs = blocks.flatten ∧
      ∀ k, ∀ d ∈ blocks.getD k [], ∃ s, d.path = childPath p (i + k) ++ s := by
  intro xs
  induction xs with
  | nil =>
      intro i
      exact ⟨[], rfl, by intro k d hd; simp at hd⟩
  | cons x xs' ih =>
      intro i
      obtain ⟨blocks', hb, hp⟩ := ih (i + 1)
      refine ⟨[Diff.missing_child (childPath p i) x] :: blocks', ?_, ?_⟩
      · rw [surplusMissing, hb]
        rfl
      · intro k d hd
        cases k with
        | zero =>
            rw [List.getD_cons_zero] at hd
            simp at hd
            subst hd
            exact ⟨"", by simp [Diff.path, String.append_empty]⟩
        | succ k' =>
            rw [List.getD_cons_succ] at hd
            obtain ⟨s, hs⟩ := hp k' d hd
            refine ⟨s, ?_⟩
            rw [hs]
            have he : i + 1 + k' = i + (k' + 1) := by omega
            rw [he]

/-- The child loop's output is a concatenation of per-child blocks, the
`k`-th block lying below the `k`-th child path — records of an earlier
child precede records of a later child. -/
theorem compareChildren_blocks (p : String) :
    ∀ (xs ys : List Json) (i : Nat) (l : List Diff),
      compareChildren p i xs ys = Except.ok l →
      ∃ blocks : List (List Diff), l = blocks.flatten ∧
        ∀ k, ∀ d ∈ blocks.getD k [], ∃ s, d.path = childPath p (i + k) ++ s := by
  intro xs
  induction xs with
  | nil =>
      intro ys i l h
      cases ys with
      | nil =>
          simp [compareChildren] at h
          subst h
          exact ⟨[], rfl, by intro k d hd; simp at hd⟩
      | cons y ys' =>
          rw [compareChildren] at h
          obtain ⟨blocks, hb, hp⟩ := surplusExtra_blocks p (y :: ys') i
          rw [← Except.ok.inj h]
          exact ⟨blocks, hb, hp⟩
  | cons x xs' ih =>
      intro ys i l h
      cases ys with
      | nil =>
          rw [compareChildren] at h
          obtain ⟨blocks, hb, hp⟩ := surplusMissing_blocks p (x :: xs') i
          rw [← Except.ok.inj h]
          exact ⟨blocks, hb, hp⟩
      | cons y ys' =>
          rw [compareChildren] at h
          obtain ⟨r, hr, h⟩ := exceptBind_ok h
          obtain ⟨rest, hrest, h⟩ := exceptBind_ok h
          obtain ⟨blocks', hb, hp⟩ := ih ys' (i + 1) rest hrest
          refine ⟨r :: blocks', ?_, ?_⟩
          · rw [← Except.ok.inj h, hb]
            rfl
          · intro k d hd
            cases k with
            | zero =>
                rw [List.getD_cons_zero] at hd
                obtain ⟨s, hs⟩ := compareNode_paths.1 (childPath p i) x y r hr d hd
                exact ⟨s, by rw [hs]; simp⟩
            | succ k' =>
                rw [List.getD_cons_succ] at hd
                obtain ⟨s, hs⟩ := hp k' d hd
                refine ⟨s, ?_⟩
                rw [hs]
                have he : i + 1 + k' = i + (k' + 1) := by omega
                rw [he]

/-- C6, counterexample: the output of `compare_pandoc_asts` is NOT in
pre-order — on a pair of `Header` nodes with differing `Code` children,
the `header_level_mismatch` record for the root (appended at lines 69-70,
after the child recursion of lines 53-63) follows the records of the
root's descendants at `root.c[0]`. -/
theorem C6_counterexample :
    compare_pandoc_asts
      (.obj [("t", .str "Header"),
             ("c", .list [.obj [("t", .str "Code"), ("c", .str "x")]])])
      (.obj [("t", .str "Header"),
             ("c", .list [.obj [("t", .str "Code"), ("c", .str "y")]])])
      = Except.ok
          [.content_mismatch "root.c[0]" "Code" (.str "x") (.str "y"),
           .attribute_mismatch_c "root.c[0]" (.str "x") (.str "y"),
           .header_level_mismatch "root"
             (.obj [("t", .str "Code"), ("c", .str "x")])
             (.obj [("t", .str "Code"), ("c", .str "y")])] := by
  simp [compare_pandoc_asts, compareNode, compareChildren, kindChecks,
    trailerChecks, headerCheck, listCheck, pyGet, pyField, pyIx, lookupField,
    jsonBeq, jsonBeqList, jsonBeqFields, childPath, jsonAsStr] <;> decide

/-- C6 (amended): a normally terminating comparison's record sequence
decomposes as `front ++ blocks.flatten ++ back`: `front` holds the
node's own records other than the two trailer types, the `k`-th block
holds records below the `k`-th child path in left-to-right child order,
and `back` holds the node's `header_level_mismatch` /
`list_type_mismatch` records — which therefore FOLLOW, not precede, the
records of the node's descendants, contrary to strict pre-order. -/
theorem C6_order_decomposition (p : String) (n1 n2 : Json) (l : List Diff)
    (h : compareNode p n1 n2 = Except.ok l) :
    ∃ (front : List Diff) (blocks : List (List Diff)) (back : List Diff),
      l = front ++ blocks.flatten ++ back ∧
      (∀ d ∈ front, d.path = p ∧ d.isTrailer = false) ∧
      (∀ k, ∀ d ∈ blocks.getD k [], ∃ s, d.path = childPath p k ++ s) ∧
      (∀ d ∈ back, d.path = p ∧ d.isTrailer = true) := by
  have hsing : ∀ d0 : Diff, d0.path = p → d0.isTrailer = false →
      ∃ (front : List Diff) (blocks : List (List Diff)) (back : List Diff),
        ([d0] : List Diff) = front ++ blocks.flatten ++ back ∧
        (∀ d ∈ front, d.path = p ∧ d.isTrailer = false) ∧
        (∀ k, ∀ d ∈ blocks.getD k [], ∃ s, d.path = childPath p k ++ s) ∧
        (∀ d ∈ back, d.path = p ∧ d.isTrailer = true) := by
    intro d0 h1 h2
    refine ⟨[d0], [], [], by simp, ?_, ?_, ?_⟩
    · intro d hd
      simp at hd
      subst hd
      exact ⟨h1, h2⟩
    · intro k d hd
      simp at hd
    · intro d hd
      simp at hd
  rcases n1 with _ | b1 | i1 | s1 | l1 | f1
  · rcases n2 with _ | b2 | i2 | s2 | l2 | f2
    · simp [compareNode] at h
      subst h
      exact ⟨[], [], [], by simp, by simp, by (intro k d hd; simp at hd), by simp⟩
    all_goals simp [compareNode] at h
    all_goals subst h
    all_goals exact hsing _ rfl rfl
  · rcases n2 with _ | b2 | i2 | s2 | l2 | f2
    · simp [compareNode] at h
      subst h
      exact hsing _ rfl rfl
    all_goals simp [compareNode] at h
  · rcases n2 with _ | b2 | i2 | s2 | l2 | f2
    · simp [compareNode] at h
      subst h
      exact hsing _ rfl rfl
    all_goals simp [compareNode] at h
  · rcases n2 with _ | b2 | i2 | s2 | l2 | f2
    · simp [compareNode] at h
      subst h
      exact hsing _ rfl rfl
    all_goals simp [compareNode] at h
  · rcases n2 with _ | b2 | i2 | s2 | l2 | f2
    · simp [compareNode] at h
      subst h
      exact hsing _ rfl rfl
    all_goals simp [compareNode] at h
  · rcases n2 with _ | b2 | i2 | s2 | l2 | f2
    · simp [compareNode] at h
      subst h
      exact hsing _ rfl rfl
    · simp [compareNode] at h
    · simp [compareNode] at h
    · simp [compareNode] at h
    · simp [compareNode] at h
    · by_cases hcond : (!jsonBeq (pyGet f1 "t") (pyGet f2 "t")) = true
      · rw [compareNode, if_pos hcond] at h
        rw [← Except.ok.inj h]
        exact hsing _ rfl rfl
      · rw [compareNode, if_neg hcond] at h
        obtain ⟨ks, hks, h⟩ := exceptBind_ok h
        have hksP := kindChecks_shape p (pyGet f1 "t") f1 f2 ks hks
        split at h
        · rename_i xs ys heq1 heq2
          obtain ⟨cs, hcs, h⟩ := exceptBind_ok h
          obtain ⟨ts, hts, h⟩ := exceptBind_ok h
          rw [← Except.ok.inj h]
          have htsP := trailerChecks_shape p (pyGet f1 "t") f1 f2 ts hts
          obtain ⟨blocks, hb, hp⟩ := compareChildren_blocks p xs ys 0 cs hcs
          refine ⟨ks, blocks, ts, by rw [hb], hksP, ?_, htsP⟩
          intro k d hd
          obtain ⟨s, hs⟩ := hp k d hd
          exact ⟨s, by rw [hs]; simp⟩
        · rename_i v1 v2 hnl heq1 heq2
          split_ifs at h
          · simp only [except_bind_ok] at h
            obtain ⟨ts, hts, h⟩ := exceptBind_ok h
            rw [← Except.ok.inj h]
            have htsP := trailerChecks_shape p (pyGet f1 "t") f1 f2 ts hts
            refine ⟨ks ++ [Diff.attribute_mismatch_c p v1 v2], [], ts,
              by simp, ?_, by (intro k d hd; simp at hd), htsP⟩
            intro d hd
            rcases List.mem_append.1 hd with hm | hm
            · exact hksP d hm
            · simp at hm
              subst hm
              exact ⟨rfl, rfl⟩
          · simp only [except_bind_ok] at h
            obtain ⟨ts, hts, h⟩ := exceptBind_ok h
            rw [← Except.ok.inj h]
            have htsP := trailerChecks_shape p (pyGet f1 "t") f1 f2 ts hts
            exact ⟨ks, [], ts, by simp, hksP,
              by (intro k d hd; simp at hd), htsP⟩
        · simp only [except_bind_ok] at h
          obtain ⟨ts, hts, h⟩ := exceptBind_ok h
          rw [← Except.ok.inj h]
          have htsP := trailerChecks_shape p (pyGet f1 "t") f1 f2 ts hts
          exact ⟨ks, [], ts, by simp, hksP,
            by (intro k d hd; simp at hd), htsP⟩

theorem C6_order_decomposition_witness :
    ∃ (front : List Diff) (blocks : List (List Diff)) (back : List Diff),
      [Diff.content_mismatch "root.c[0]" "Code" (Json.str "x") (Json.str "y"),
       Diff.attribute_mismatch_c "root.c[0]" (Json.str "x") (Json.str "y"),
       Diff.header_level_mismatch "root"
         (Json.obj [("t", Json.str "Code"), ("c", Json.str "x")])
         (Json.obj [("t", Json.str "Code"), ("c", Json.str "y")])] =
        front ++ blocks.flatten ++ back ∧
      (∀ d ∈ front, d.path = "root" ∧ d.isTrailer = false) ∧
      (∀ k, ∀ d ∈ blocks.getD k [], ∃ s, d.path = childPath "root" k ++ s) ∧
      (∀ d ∈ back, d.path = "root" ∧ d.isTrailer = true) :=
  C6_order_decomposition "root"
    (.obj [("t", .str "Header"),
           ("c", .list [.obj [("t", .str "Code"), ("c", .str "x")]])])
    (.obj [("t", .str "Header"),
           ("c", .list [.obj [("t", .str "Code"), ("c", .str "y")]])])
    _
    (by simp [compareNode, compareChildren, kindChecks, trailerChecks,
      headerCheck, listCheck, pyGet, pyField, pyIx, lookupField, jsonBeq,
      jsonBeqList, jsonBeqFields, childPath, jsonAsStr] <;> decide)

end TransEval
